import Mathlib

/-!
# Verification of the Breez dental-clinic scheduling core (`src/main.py`)

A shallow embedding of the scheduling and conflict-detection engine of the
FastAPI appointment service: date parsing (`parse_and_validate_date`),
the conflict check (`check_availability`), free-slot computation
(`get_availability`), and the state transitions `create_appointment`,
`update_appointment`, `delete_appointment` over the SQLite `appointments`
table (modelled as a list of rows plus the AUTOINCREMENT counter).

Modelling conventions, matching CPython semantics:
* Strings are `List Char`; SQLite's BINARY text comparison is byte-order
  comparison, which for the ASCII strings involved is code-point order
  (`ltB` below).
* `datetime` values are `DateTime` records of `Nat` fields; Python compares
  them field-lexicographically (`dtLt`).  `datetime.now()` microseconds are
  not modelled (second precision), which is observable only when a parsed
  instant equals `now` to the second.
* `strptime` is modelled format by format.  CPython compiles each directive
  to a regex (`%Y` = exactly four digits, `%m`/`%d`/`%H`/`%M`/`%S` = one or
  two digits constrained to their calendar range, a space = `\s+`, literal
  letters match case-insensitively) and requires the whole string to match;
  since in all four formats of the source every numeric directive is
  followed by a non-digit literal (or end of input), greedy digit-taking
  plus a range check is exactly equivalent to the regex with backtracking.
  `\d`/`\s` are modelled as their ASCII classes.
* `strftime "%Y-%m-%d %H:%M"` is modelled as zero-padded fixed width
  (`canon`).  CPython on glibc zero-pads `%m %d %H %M` always and prints
  `%Y` unpadded, so the model is exact for years ≥ 1000: every instant a
  running system can store is in that region (`datetime.now()` is).
* `datetime ± timedelta(minutes=59)` raises `OverflowError` outside
  `datetime.min .. datetime.max`; the model returns `none` there and the
  endpoints answer the 500-error case (`Err.internal`), leaving the store
  unchanged, exactly as an uncaught exception does.
-/

namespace Breez

/-- ASCII digit character for `n < 10`. -/
def digitChar (n : Nat) : Char := Char.ofNat (48 + n)

/-- ASCII digit test (regex `\d` with ASCII semantics). -/
def isDig (c : Char) : Bool := 48 ≤ c.toNat && c.toNat ≤ 57

/-- ASCII whitespace test (regex `\s` with ASCII semantics). -/
def isWS (c : Char) : Bool :=
  c = ' ' || c = '\t' || c = '\n' || c = '\r' || c = Char.ofNat 11 || c = Char.ofNat 12

/-- Byte-order (memcmp) comparison of strings, as SQLite's BINARY collation
performs on TEXT values; on ASCII this is code-point lexicographic order. -/
def ltB : List Char → List Char → Bool
  | [], [] => false
  | [], _ :: _ => true
  | _ :: _, [] => false
  | a :: as, b :: bs =>
    if a.toNat < b.toNat then true
    else if a.toNat = b.toNat then ltB as bs
    else false

/-- Two-digit zero-padded decimal rendering (`"%02d"`), for `n < 100`. -/
def pad2 (n : Nat) : List Char := [digitChar (n / 10), digitChar (n % 10)]

/-- Four-digit zero-padded decimal rendering of `n < 10000`. -/
def pad4 (n : Nat) : List Char := pad2 (n / 100) ++ pad2 (n % 100)

/-- A `datetime.datetime` value (microseconds not modelled). -/
structure DateTime where
  year : Nat
  month : Nat
  day : Nat
  hour : Nat
  minute : Nat
  second : Nat
deriving DecidableEq

/-- Gregorian leap-year rule, as `calendar.isleap` / `datetime` use. -/
def isLeap (y : Nat) : Bool := y % 4 = 0 && (y % 100 ≠ 0 || y % 400 = 0)

/-- Days in month `m` (1–12) given the leap flag; `0` outside that range. -/
def dimb (leap : Bool) : Nat → Nat
  | 1 => 31
  | 2 => if leap then 29 else 28
  | 3 => 31
  | 4 => 30
  | 5 => 31
  | 6 => 30
  | 7 => 31
  | 8 => 31
  | 9 => 30
  | 10 => 31
  | 11 => 30
  | 12 => 31
  | _ => 0

/-- Days in month `m` of year `y`. -/
def daysInMonth (y m : Nat) : Nat := dimb (isLeap y) m

/-- Days in the months strictly before month `m` of a year with leap flag
`leap` (so `dbmb leap 1 = 0`). -/
def dbmb (leap : Bool) : Nat → Nat
  | 0 => 0
  | m + 1 => dbmb leap m + dimb leap m

/-- Number of days in year `y`. -/
def daysInYear (y : Nat) : Nat := if isLeap y then 366 else 365

/-- Days in all years strictly before year `y` (proleptic Gregorian,
counted from year 0): 365 per year plus one per leap year in `[0, y)`,
in closed form so that it evaluates in constant time. -/
def dby (y : Nat) : Nat :=
  365 * y + (y + 3) / 4 - (y + 99) / 100 + (y + 399) / 400

/-- Day number of the civil date `(y, m, d)` (days since 0000-01-01). -/
def toDays (y m d : Nat) : Nat := dby y + dbmb (isLeap y) m + (d - 1)

/-- Minute number of an instant (minutes since 0000-01-01 00:00); seconds
are below the granularity of the stored data and are ignored, exactly as
the canonical storage format drops them. -/
def toMin (dt : DateTime) : Nat :=
  toDays dt.year dt.month dt.day * 1440 + dt.hour * 60 + dt.minute

/-- Distance in minutes between two instants. -/
def distMin (a b : Nat) : Nat := max a b - min a b

/-- The validity envelope `datetime.datetime` itself enforces:
`MINYEAR ≤ year ≤ MAXYEAR` and each field in calendar range. -/
def validDT (dt : DateTime) : Prop :=
  1 ≤ dt.year ∧ dt.year ≤ 9999 ∧ 1 ≤ dt.month ∧ dt.month ≤ 12 ∧
  1 ≤ dt.day ∧ dt.day ≤ daysInMonth dt.year dt.month ∧
  dt.hour ≤ 23 ∧ dt.minute ≤ 59 ∧ dt.second ≤ 59

instance (dt : DateTime) : Decidable (validDT dt) := by
  unfold validDT; infer_instance

/-- Python's field-lexicographic comparison of two `datetime` values. -/
def dtLt (a b : DateTime) : Bool :=
  if a.year ≠ b.year then a.year < b.year
  else if a.month ≠ b.month then a.month < b.month
  else if a.day ≠ b.day then a.day < b.day
  else if a.hour ≠ b.hour then a.hour < b.hour
  else if a.minute ≠ b.minute then a.minute < b.minute
  else a.second < b.second

/-- The `"YYYY-MM-DD"` rendering of a civil date — the `date` query
parameter of the availability endpoint. -/
def dayStrOf (y m d : Nat) : List Char :=
  pad4 y ++ '-' :: (pad2 m ++ '-' :: pad2 d)

/-- `strftime "%Y-%m-%d"` of an instant — the day part of the canonical
format, also the date reported in the `PastDate` rejection message. -/
def canonDay (dt : DateTime) : List Char :=
  dayStrOf dt.year dt.month dt.day

/-- `strftime "%Y-%m-%d %H:%M"` — the canonical minute-precision storage
format produced by `parse_and_validate_date` (seconds discarded). -/
def canon (dt : DateTime) : List Char :=
  canonDay dt ++ ' ' :: (pad2 dt.hour ++ ':' :: pad2 dt.minute)

/-! ## The `strptime` model -/

/-- One token of a `strptime` format string. -/
inductive FmtTok where
  | lit (c : Char)
  | space
  | dirY
  | dirm
  | dird
  | dirH
  | dirM
  | dirS
deriving DecidableEq

/-- Partially parsed field values with `strptime`'s defaults
(year 1900, month 1, day 1, midnight). -/
structure PVals where
  y : Nat := 1900
  mo : Nat := 1
  d : Nat := 1
  h : Nat := 0
  mi : Nat := 0
  s : Nat := 0
deriving DecidableEq

/-- Take up to `k` leading ASCII digits. -/
def takeUpTo : Nat → List Char → List Char × List Char
  | 0, cs => ([], cs)
  | _ + 1, [] => ([], [])
  | k + 1, c :: cs =>
    if isDig c then (c :: (takeUpTo k cs).1, (takeUpTo k cs).2)
    else ([], c :: cs)

/-- Numeric value of a list of digit characters. -/
def digitsVal (ds : List Char) : Nat := ds.foldl (fun a c => a * 10 + (c.toNat - 48)) 0

/-- A one-or-two-digit numeric directive (`%m %d %H %M %S`). -/
def parseNum2 (cs : List Char) : Option (Nat × List Char) :=
  if (takeUpTo 2 cs).1.isEmpty then none
  else some (digitsVal (takeUpTo 2 cs).1, (takeUpTo 2 cs).2)

/-- The `%Y` directive: exactly four digits in CPython's `_strptime`. -/
def parseNum4 (cs : List Char) : Option (Nat × List Char) :=
  if (takeUpTo 4 cs).1.length = 4 then some (digitsVal (takeUpTo 4 cs).1, (takeUpTo 4 cs).2)
  else none

/-- Run a format over an input.  Literals match case-insensitively
(CPython compiles the format with `re.IGNORECASE`), a format space matches
one or more whitespace characters, and the whole input must be consumed.
The in-range constraints on each directive reproduce the directive
regexes together with the `datetime` constructor's field checks; as
argued in the header, greedy digit-taking is equivalent to the regexes
for these formats. -/
def runToks : List FmtTok → List Char → PVals → Option PVals
  | [], [], v => some v
  | [], _ :: _, _ => none
  | .lit _ :: _, [], _ => none
  | .lit c :: ts, x :: xs, v => if x.toLower = c.toLower then runToks ts xs v else none
  | .space :: ts, xs, v =>
    match xs with
    | [] => none
    | x :: rest => if isWS x then runToks ts (rest.dropWhile isWS) v else none
  | .dirY :: ts, xs, v =>
    match parseNum4 xs with
    | some (n, rest) => runToks ts rest { v with y := n }
    | none => none
  | .dirm :: ts, xs, v =>
    match parseNum2 xs with
    | some (n, rest) => if 1 ≤ n ∧ n ≤ 12 then runToks ts rest { v with mo := n } else none
    | none => none
  | .dird :: ts, xs, v =>
    match parseNum2 xs with
    | some (n, rest) => if 1 ≤ n ∧ n ≤ 31 then runToks ts rest { v with d := n } else none
    | none => none
  | .dirH :: ts, xs, v =>
    match parseNum2 xs with
    | some (n, rest) => if n ≤ 23 then runToks ts rest { v with h := n } else none
    | none => none
  | .dirM :: ts, xs, v =>
    match parseNum2 xs with
    | some (n, rest) => if n ≤ 59 then runToks ts rest { v with mi := n } else none
    | none => none
  | .dirS :: ts, xs, v =>
    match parseNum2 xs with
    | some (n, rest) => if n ≤ 59 then runToks ts rest { v with s := n } else none
    | none => none

/-- The `datetime` construction performed by `strptime` after matching:
fails (`ValueError`, caught by the format loop) outside the calendar
envelope — in particular on day numbers invalid for the parsed month. -/
def mkDT (v : PVals) : Option DateTime :=
  if validDT ⟨v.y, v.mo, v.d, v.h, v.mi, v.s⟩ then some ⟨v.y, v.mo, v.d, v.h, v.mi, v.s⟩
  else none

/-- `datetime.strptime(s, fmt)` for one format of the source's list. -/
def tryFormat (f : List FmtTok) (s : List Char) : Option DateTime :=
  (runToks f s {}).bind mkDT

/-- `"%Y-%m-%dT%H:%M:%SZ"` — ISO format (2025-12-30T15:00:00Z). -/
def fmt1 : List FmtTok :=
  [.dirY, .lit '-', .dirm, .lit '-', .dird, .lit 'T', .dirH, .lit ':', .dirM, .lit ':', .dirS,
   .lit 'Z']

/-- `"%Y-%m-%d %H:%M:%S"` — SQL format (2025-12-30 15:00:00). -/
def fmt2 : List FmtTok :=
  [.dirY, .lit '-', .dirm, .lit '-', .dird, .space, .dirH, .lit ':', .dirM, .lit ':', .dirS]

/-- `"%d/%m/%Y %H:%M:%S"` — slash format (30/12/2025 15:00:00). -/
def fmt3 : List FmtTok :=
  [.dird, .lit '/', .dirm, .lit '/', .dirY, .space, .dirH, .lit ':', .dirM, .lit ':', .dirS]

/-- `"%Y-%m-%d %H:%M"` — short format. -/
def fmt4 : List FmtTok :=
  [.dirY, .lit '-', .dirm, .lit '-', .dird, .space, .dirH, .lit ':', .dirM]

/-- The format loop of `parse_and_validate_date`: try each format in
order, `break` on the first success. -/
def tryFormats (s : List Char) : Option DateTime :=
  match tryFormat fmt1 s with
  | some dt => some dt
  | none =>
    match tryFormat fmt2 s with
    | some dt => some dt
    | none =>
      match tryFormat fmt3 s with
      | some dt => some dt
      | none => tryFormat fmt4 s

/-- `date_str.replace("Z", "")` — removes every uppercase `Z`. -/
def stripZ (s : List Char) : List Char := s.filter (fun c => ¬ c = 'Z')

/-- The typed outcomes of the endpoints.  `pastDate` carries the
`strftime("%Y-%m-%d")` of the current time, which the Arabic rejection
message embeds; `internal` is an uncaught exception (HTTP 500). -/
inductive Err where
  | malformed
  | pastDate (today : List Char)
  | outOfHours
  | conflict
  | notFound
  | internal
deriving DecidableEq

instance {ε α : Type} [DecidableEq ε] [DecidableEq α] : DecidableEq (Except ε α) := fun a b =>
  match a, b with
  | .error e, .error f =>
    if h : e = f then isTrue (by rw [h]) else isFalse (fun hc => by cases hc; exact h rfl)
  | .error _, .ok _ => isFalse (fun hc => Except.noConfusion hc)
  | .ok _, .error _ => isFalse (fun hc => Except.noConfusion hc)
  | .ok x, .ok y =>
    if h : x = y then isTrue (by rw [h]) else isFalse (fun hc => by cases hc; exact h rfl)

/-- `parse_and_validate_date(date_str)` with the two `datetime.now()`
calls modelled as the single instant `now`: strip `"Z"`, try the format
list, reject unparsed input (`malformed`) and parsed instants strictly
before `now` (`pastDate`, reporting today's date), and return the
canonical minute-precision string. -/
def parse_and_validate_date (dateStr : List Char) (now : DateTime) : Except Err (List Char) :=
  match tryFormats (stripZ dateStr) with
  | none => .error .malformed
  | some dt => if dtLt dt now then .error (.pastDate (canonDay now)) else .ok (canon dt)

/-! ## Timedelta arithmetic

`target_dt ± timedelta(minutes=59)` moves at most one calendar day, so it
is modelled by minute arithmetic within the day plus a one-day civil
step.  Stepping outside `datetime.min .. datetime.max` is the
`OverflowError` case, modelled as `none`. -/

/-- The calendar day after `(y, m, d)`; `none` past `datetime.max`. -/
def nextDayO (y m d : Nat) : Option (Nat × Nat × Nat) :=
  if d < daysInMonth y m then some (y, m, d + 1)
  else if m < 12 then some (y, m + 1, 1)
  else if y < 9999 then some (y + 1, 1, 1)
  else none

/-- The calendar day before `(y, m, d)`; `none` before `datetime.min`. -/
def prevDayO (y m d : Nat) : Option (Nat × Nat × Nat) :=
  if 1 < d then some (y, m, d - 1)
  else if 1 < m then some (y, m - 1, daysInMonth y (m - 1))
  else if 1 < y then some (y - 1, 12, 31)
  else none

/-- `target_dt + timedelta(minutes=59)` (`t` below is the minute of day
of the result relative to the target's day). -/
def add59 (dt : DateTime) : Option DateTime :=
  if dt.hour * 60 + dt.minute + 59 < 1440 then
    some { dt with
            hour := (dt.hour * 60 + dt.minute + 59) / 60,
            minute := (dt.hour * 60 + dt.minute + 59) % 60 }
  else
    match nextDayO dt.year dt.month dt.day with
    | some (y, m, d) =>
      some ⟨y, m, d, (dt.hour * 60 + dt.minute + 59 - 1440) / 60,
            (dt.hour * 60 + dt.minute + 59 - 1440) % 60, dt.second⟩
    | none => none

/-- `target_dt - timedelta(minutes=59)` (borrowing one day, i.e. adding
`1440 - 59 = 1381` minutes, when the target is in the first 59 minutes
of its day). -/
def sub59 (dt : DateTime) : Option DateTime :=
  if 59 ≤ dt.hour * 60 + dt.minute then
    some { dt with
            hour := (dt.hour * 60 + dt.minute - 59) / 60,
            minute := (dt.hour * 60 + dt.minute - 59) % 60 }
  else
    match prevDayO dt.year dt.month dt.day with
    | some (y, m, d) =>
      some ⟨y, m, d, (dt.hour * 60 + dt.minute + 1381) / 60,
            (dt.hour * 60 + dt.minute + 1381) % 60, dt.second⟩
    | none => none

/-! ## The store and the endpoints -/

/-- One row of the `appointments` table. -/
structure Row where
  id : Nat
  patient_name : List Char
  age : Int
  service : List Char
  appointment_date : List Char
deriving DecidableEq

/-- The `appointments` table plus its AUTOINCREMENT counter (`nextId` is
the id the next INSERT will receive; SQLite starts at 1). -/
structure Store where
  rows : List Row
  nextId : Nat
deriving DecidableEq

/-- The request body of the create endpoint. -/
structure AppointmentCreate where
  patient_name : List Char
  age : Int
  service : List Char
  appointment_date : List Char

def WORK_START : Nat := 8
def WORK_END : Nat := 16

/-- The row set the conflict query ranges over: `AND id != ?` is added
only when `exclude_id` is truthy (not `None` and not `0`). -/
def rowsForCheck (rows : List Row) (excludeId : Option Nat) : List Row :=
  match excludeId with
  | none => rows
  | some i => if i = 0 then rows else rows.filter (fun r => ¬ r.id = i)

/-- `check_availability(conn, target_dt, exclude_id)`: build the window
strings `start = strftime(target - 59min)`, `end = strftime(target + 59min)`
and report `true` (available) exactly when no row (other than the
excluded id) has `start < appointment_date < end` in string order.
`none` is the `OverflowError` raised by the timedelta arithmetic at the
`datetime` range boundary. -/
def check_availability (rows : List Row) (target : DateTime) (excludeId : Option Nat) :
    Option Bool :=
  match sub59 target, add59 target with
  | some s, some e =>
    some (!((rowsForCheck rows excludeId).any (fun r =>
      ltB (canon s) r.appointment_date && ltB r.appointment_date (canon e))))
  | _, _ => none

/-- `POST /appointments`: validate the date, re-parse the canonical
string, check working hours (`WORK_START ≤ hour < WORK_END`), check the
conflict window, and insert.  Returns the outcome together with the
resulting store (error paths leave the store unchanged). -/
def create_appointment (st : Store) (now : DateTime) (data : AppointmentCreate) :
    Except Err (List Char) × Store :=
  match parse_and_validate_date data.appointment_date now with
  | .error e => (.error e, st)
  | .ok validStr =>
    match tryFormat fmt4 validStr with
    | none => (.error .internal, st)
    | some dt =>
      if ¬ (WORK_START ≤ dt.hour ∧ dt.hour < WORK_END) then (.error .outOfHours, st)
      else
        match check_availability st.rows dt none with
        | none => (.error .internal, st)
        | some false => (.error .conflict, st)
        | some true =>
          (.ok validStr,
           ⟨st.rows ++ [⟨st.nextId, data.patient_name, data.age, data.service, validStr⟩],
            st.nextId + 1⟩)

/-- `PATCH /appointments/{id}`: validate the new date, check the id
exists, check the conflict window excluding the appointment itself, then
update that row's `appointment_date` only. -/
def update_appointment (st : Store) (now : DateTime) (appointmentId : Nat)
    (dateStr : List Char) : Except Err (List Char) × Store :=
  match parse_and_validate_date dateStr now with
  | .error e => (.error e, st)
  | .ok validStr =>
    match tryFormat fmt4 validStr with
    | none => (.error .internal, st)
    | some dt =>
      if ¬ st.rows.any (fun r => r.id = appointmentId) then (.error .notFound, st)
      else
        match check_availability st.rows dt (some appointmentId) with
        | none => (.error .internal, st)
        | some false => (.error .conflict, st)
        | some true =>
          (.ok validStr,
           ⟨st.rows.map (fun r =>
              if r.id = appointmentId then { r with appointment_date := validStr } else r),
            st.nextId⟩)

/-- `DELETE /appointments/{id}`: delete the row; report `notFound`
(leaving the store unchanged) when `rowcount == 0`. -/
def delete_appointment (st : Store) (appointmentId : Nat) : Except Err Unit × Store :=
  if st.rows.any (fun r => r.id = appointmentId) then
    (.ok (), ⟨st.rows.filter (fun r => ¬ r.id = appointmentId), st.nextId⟩)
  else (.error .notFound, st)

/-- Sequential left-to-right traversal of the availability rows: the
Python list comprehension raises out of the endpoint if any stored date
fails to parse (modelled as `none`). -/
def mapO : List Row → (Row → Option Nat) → Option (List Nat)
  | [], _ => some []
  | r :: rs, f =>
    match f r with
    | none => none
    | some n => (mapO rs f).map (fun ns => n :: ns)

/-- `appointment_date LIKE '{date}%'`: a case-insensitive prefix match.
(SQLite `LIKE` wildcards inside `date` itself are not modelled; the
theorems apply it to `"YYYY-MM-DD"` day strings, which contain none.) -/
def isPrefixCI : List Char → List Char → Bool
  | [], _ => true
  | _ :: _, [] => false
  | c :: cs, x :: xs => c.toLower = x.toLower && isPrefixCI cs xs

/-- The hour label `f"{hour:02d}:00"`. -/
def slotLabel (h : Nat) : List Char := pad2 h ++ [':', '0', '0']

/-- `GET /availability?date=...`: collect the hours of the appointments
whose stored date begins with `date`, and list the whole-hour slots of
`range(WORK_START, WORK_END)` whose hour is not among them. -/
def get_availability (rows : List Row) (date : List Char) : Option (List (List Char)) :=
  (mapO (rows.filter (fun r => isPrefixCI date r.appointment_date))
      (fun r => (tryFormat fmt4 r.appointment_date).map DateTime.hour)).map
    (fun booked =>
      ((List.range' WORK_START (WORK_END - WORK_START)).filter
        (fun h => !booked.contains h)).map slotLabel)

/-- The store states reachable from the fresh table by any sequence of
create / reschedule / cancel requests (successful or failed — failed
ones leave the store unchanged).  Each request is validated against the
wall clock `now` of its own arrival, which is always a real calendar
instant (`validDT`). -/
inductive Reach : Store → Prop where
  | init : Reach ⟨[], 1⟩
  | create (st : Store) (now : DateTime) (data : AppointmentCreate) :
      Reach st → validDT now → Reach (create_appointment st now data).2
  | update (st : Store) (now : DateTime) (appointmentId : Nat) (dateStr : List Char) :
      Reach st → validDT now → Reach (update_appointment st now appointmentId dateStr).2
  | delete (st : Store) (appointmentId : Nat) :
      Reach st → Reach (delete_appointment st appointmentId).2

/-- A stored date string read back as an instant, as the availability
endpoint and the listing endpoints do (`strptime "%Y-%m-%d %H:%M"`). -/
def storedDT (r : Row) : Option DateTime := tryFormat fmt4 r.appointment_date

/-- The minute number of a stored row's start time (`0` for a row whose
date does not parse — the invariant shows such rows never exist). -/
def storedMin (r : Row) : Nat :=
  match storedDT r with
  | some dt => toMin dt
  | none => 0

/-- The hour-of-day of a stored row's start time, as the availability
endpoint reads it back. -/
def storedHour (r : Row) : Nat :=
  match storedDT r with
  | some dt => dt.hour
  | none => 0

/-- "Some stored appointment's start time falls on exactly hour `h` of
the day `(y, m, d)`" — the slot-occupancy test of the specification. -/
def onHourB (r : Row) (y m d h : Nat) : Bool :=
  match storedDT r with
  | some dt => decide (dt.year = y ∧ dt.month = m ∧ dt.day = d ∧ dt.hour = h)
  | none => false

/-- A row holding the canonical rendering of a real instant — the data
invariant of the table. -/
def canonicalRow (r : Row) : Prop :=
  ∃ dt, validDT dt ∧ dt.second = 0 ∧ r.appointment_date = canon dt

/-- The full store invariant: every date canonical, ids positive,
distinct and below the AUTOINCREMENT counter, and every two rows at
least 59 minutes apart. -/
def Inv (st : Store) : Prop :=
  1 ≤ st.nextId ∧
  (∀ r ∈ st.rows, canonicalRow r) ∧
  (∀ r ∈ st.rows, 1 ≤ r.id ∧ r.id < st.nextId) ∧
  st.rows.Pairwise (fun a b => a.id ≠ b.id ∧ 59 ≤ distMin (storedMin a) (storedMin b))

/-- Truncation to minute precision — the instant the canonical storage
string denotes. -/
def minTrunc (dt : DateTime) : DateTime :=
  ⟨dt.year, dt.month, dt.day, dt.hour, dt.minute, 0⟩

/-- Strict lexicographic order on the civil-date triple. -/
def lexC (y m d y' m' d' : Nat) : Prop :=
  y < y' ∨ (y = y' ∧ (m < m' ∨ (m = m' ∧ d < d')))

/-- Strict lexicographic order on the five minute-precision fields —
the order in which the canonical strings compare. -/
def lex5 (a b : DateTime) : Prop :=
  lexC a.year a.month a.day b.year b.month b.day ∨
  (a.year = b.year ∧ a.month = b.month ∧ a.day = b.day ∧
   (a.hour < b.hour ∨ (a.hour = b.hour ∧ a.minute < b.minute)))

/-- Calendar-validity of a civil date triple. -/
def wfCivil (y m d : Nat) : Prop :=
  1 ≤ m ∧ m ≤ 12 ∧ 1 ≤ d ∧ d ≤ daysInMonth y m

instance (y m d : Nat) : Decidable (wfCivil y m d) := by
  unfold wfCivil
  infer_instance

/-! ### Concrete scenario data

A request clock and the stores produced by the end-to-end scenarios of
the specification, used by the concrete halves of the theorems below. -/

/-- A fixed request-time for the concrete scenarios. -/
def exNow : DateTime := ⟨2025, 6, 1, 12, 0, 0⟩

/-- A create request for the given raw date string. -/
def mkReq (d : List Char) : AppointmentCreate :=
  ⟨"Alice".toList, 30, "cleaning".toList, d⟩

/-- The store after booking `2099-01-10 09:00` on a fresh table. -/
def exStore1 : Store :=
  (create_appointment ⟨[], 1⟩ exNow (mkReq "2099-01-10 09:00".toList)).2

/-- The store after additionally booking `2099-01-10 09:59` — accepted,
59 minutes after the first booking. -/
def exStore2 : Store :=
  (create_appointment exStore1 exNow (mkReq "2099-01-10 09:59".toList)).2

/-- The store after booking `2099-01-10 09:30` on a fresh table. -/
def exStoreHalf : Store :=
  (create_appointment ⟨[], 1⟩ exNow (mkReq "2099-01-10 09:30".toList)).2

/-! ## Digit and string-order lemmas -/

theorem digit_toNat : ∀ k, k < 10 → (digitChar k).toNat = 48 + k := by decide

theorem digit_isDig : ∀ k, k < 10 → isDig (digitChar k) = true := by decide

theorem digit_toLower : ∀ k, k < 10 → (digitChar k).toLower = digitChar k := by decide

theorem digit_ne_slash : ∀ k, k < 10 → ¬ (digitChar k).toLower = ('/').toLower := by decide

theorem digit_not_ws : ∀ k, k < 10 → isWS (digitChar k) = false := by decide

theorem digit_ne_Z : ∀ k, k < 10 → ¬ digitChar k = 'Z' := by decide

theorem ltB_cons_same (c : Char) (u v : List Char) : ltB (c :: u) (c :: v) = ltB u v := by
  simp [ltB]

theorem pad2_lt {n m : Nat} (hn : n < 100) (hm : m < 100) (u v : List Char) :
    (ltB (pad2 n ++ u) (pad2 m ++ v) = true) ↔ (n < m ∨ (n = m ∧ ltB u v = true)) := by
  have h1 := digit_toNat (n / 10) (by omega)
  have h2 := digit_toNat (n % 10) (by omega)
  have h3 := digit_toNat (m / 10) (by omega)
  have h4 := digit_toNat (m % 10) (by omega)
  simp only [pad2, List.cons_append, ltB, h1, h2, h3, h4]
  split_ifs with hc1 hc2 hc3 hc4 <;>
    first
      | (simp only [true_iff, false_iff]; omega)
      | (constructor
         · intro hlt
           right
           exact ⟨by omega, hlt⟩
         · rintro (h | ⟨-, h⟩)
           · omega
           · exact h)

theorem pad2_inj {n m : Nat} (hn : n < 100) (hm : m < 100) (h : pad2 n = pad2 m) : n = m := by
  have h1 := digit_toNat (n / 10) (by omega)
  have h2 := digit_toNat (n % 10) (by omega)
  have h3 := digit_toNat (m / 10) (by omega)
  have h4 := digit_toNat (m % 10) (by omega)
  simp only [pad2, List.cons.injEq, and_true] at h
  have e1 : (digitChar (n / 10)).toNat = (digitChar (m / 10)).toNat := by rw [h.1]
  have e2 : (digitChar (n % 10)).toNat = (digitChar (m % 10)).toNat := by rw [h.2]
  omega

theorem pad4_lt {n m : Nat} (hn : n < 10000) (hm : m < 10000) (u v : List Char) :
    (ltB (pad4 n ++ u) (pad4 m ++ v) = true) ↔ (n < m ∨ (n = m ∧ ltB u v = true)) := by
  simp only [pad4, List.append_assoc]
  rw [pad2_lt (by omega) (by omega), pad2_lt (by omega) (by omega)]
  constructor
  · rintro (h | ⟨h1, h2 | ⟨h3, h4⟩⟩)
    · left; omega
    · left; omega
    · right; exact ⟨by omega, h4⟩
  · rintro (h | ⟨h1, h2⟩)
    · rcases Nat.lt_or_ge (n / 100) (m / 100) with h' | h'
      · exact .inl h'
      · exact .inr ⟨by omega, .inl (by omega)⟩
    · exact .inr ⟨by omega, .inr ⟨by omega, h2⟩⟩

theorem pad2_lt_nil {n m : Nat} (hn : n < 100) (hm : m < 100) :
    (ltB (pad2 n) (pad2 m) = true) ↔ n < m := by
  have h := pad2_lt hn hm [] []
  simp only [List.append_nil] at h
  rw [h]
  simp [ltB]

/-! ## Calendar arithmetic lemmas -/

theorem dimb_le31 : ∀ (b : Bool), ∀ m < 13, dimb b m ≤ 31 := by decide

theorem dimb_pos : ∀ (b : Bool), ∀ m < 13, 1 ≤ m → 1 ≤ dimb b m := by decide

theorem dbm_day_lt :
    ∀ (b : Bool), ∀ m < 13, ∀ d < 32, 1 ≤ m → 1 ≤ d → d ≤ dimb b m →
      dbmb b m + (d - 1) < (if b then 366 else 365) := by decide

theorem isLeap_iff (y : Nat) :
    isLeap y = true ↔ (y % 4 = 0 ∧ (¬ y % 100 = 0 ∨ y % 400 = 0)) := by
  unfold isLeap
  simp [Bool.and_eq_true, Bool.or_eq_true]
theorem dby_succ (y : Nat) : dby (y + 1) = dby y + daysInYear y := by
  have q4 : y % 4 = 0 → (y + 4) / 4 = (y + 3) / 4 + 1 := by omega
  have q4' : y % 4 ≠ 0 → (y + 4) / 4 = (y + 3) / 4 := by omega
  have q100 : y % 100 = 0 → (y + 100) / 100 = (y + 99) / 100 + 1 := by omega
  have q100' : y % 100 ≠ 0 → (y + 100) / 100 = (y + 99) / 100 := by omega
  have q400 : y % 400 = 0 → (y + 400) / 400 = (y + 399) / 400 + 1 := by omega
  have q400' : y % 400 ≠ 0 → (y + 400) / 400 = (y + 399) / 400 := by omega
  have h400_4 : y % 400 = 0 → y % 4 = 0 := by omega
  have h400_100 : y % 400 = 0 → y % 100 = 0 := by omega
  have hsub : (y + 99) / 100 ≤ 365 * y + (y + 3) / 4 := by omega
  have n1 : y + 1 + 3 = y + 4 := by omega
  have n2 : y + 1 + 99 = y + 100 := by omega
  have n3 : y + 1 + 399 = y + 400 := by omega
  cases hL : isLeap y with
  | true =>
    obtain ⟨h4, hor⟩ := (isLeap_iff y).mp hL
    have h2 : daysInYear y = 366 := by simp [daysInYear, hL]
    rw [h2]
    unfold dby
    rw [n1, n2, n3]
    have e1 := q4 h4
    rcases hor with h100 | h400
    · have h400' : y % 400 ≠ 0 := fun hc => h100 (h400_100 hc)
      have e2 := q100' h100
      have e3 := q400' h400'
      omega
    · have e2 := q100 (h400_100 h400)
      have e3 := q400 h400
      omega
  | false =>
    have h1 : ¬ (y % 4 = 0 ∧ (¬ y % 100 = 0 ∨ y % 400 = 0)) := fun hc => by
      have := (isLeap_iff y).mpr hc
      rw [hL] at this
      exact Bool.noConfusion this
    have h2 : daysInYear y = 365 := by simp [daysInYear, hL]
    rw [h2]
    unfold dby
    rw [n1, n2, n3]
    by_cases h4 : y % 4 = 0
    · have h100 : y % 100 = 0 := by
        by_contra hc
        exact h1 ⟨h4, .inl hc⟩
      have h400 : y % 400 ≠ 0 := fun hc => h1 ⟨h4, .inr hc⟩
      have e1 := q4 h4
      have e2 := q100 h100
      have e3 := q400' h400
      omega
    · have h100' : y % 100 ≠ 0 := fun hc => h4 (by omega)
      have h400' : y % 400 ≠ 0 := fun hc => h4 (by omega)
      have e1 := q4' h4
      have e2 := q100' h100'
      have e3 := q400' h400'
      omega

theorem dby_mono {y y' : Nat} (h : y ≤ y') : dby y ≤ dby y' := by
  induction y' with
  | zero =>
    have h0 : y = 0 := Nat.le_zero.mp h
    subst h0
    exact le_refl _
  | succ n ih =>
    rcases Nat.lt_or_ge y (n + 1) with hy | hy
    · have := ih (by omega)
      rw [dby_succ]
      omega
    · have h0 : y = n + 1 := by omega
      subst h0
      exact le_refl _

theorem daysInMonth_le31 {y m : Nat} (h : m ≤ 12) : daysInMonth y m ≤ 31 :=
  dimb_le31 (isLeap y) m (by omega)

theorem toDays_ub {y m d : Nat} (h : wfCivil y m d) : toDays y m d < dby (y + 1) := by
  obtain ⟨h1, h2, h3, h4⟩ := h
  have h5 : d ≤ dimb (isLeap y) m := h4
  have hb := dbm_day_lt (isLeap y) m (by omega) d
    (by have := daysInMonth_le31 (y := y) h2; unfold daysInMonth at this; omega) h1 h3 h5
  rw [dby_succ]
  unfold toDays daysInYear
  cases hL : isLeap y <;> simp [hL] at hb ⊢ <;> omega

theorem toDays_lt_of_lex {y m d y' m' d' : Nat} (h : wfCivil y m d) (h' : wfCivil y' m' d')
    (hl : lexC y m d y' m' d') : toDays y m d < toDays y' m' d' := by
  obtain ⟨h1, h2, h3, h4⟩ := h
  obtain ⟨h1', h2', h3', h4'⟩ := h'
  rcases hl with hy | ⟨rfl, hm | ⟨rfl, hd⟩⟩
  · have u1 : toDays y m d < dby (y + 1) := toDays_ub ⟨h1, h2, h3, h4⟩
    have u2 : dby (y + 1) ≤ dby y' := dby_mono (by omega)
    have u3 : dby y' ≤ toDays y' m' d' := by unfold toDays; omega
    omega
  · unfold toDays
    have step : ∀ k, dbmb (isLeap y) (k + 1) = dbmb (isLeap y) k + dimb (isLeap y) k :=
      fun _ => rfl
    have mono : ∀ a b, a ≤ b → dbmb (isLeap y) a ≤ dbmb (isLeap y) b := by
      intro a b hab
      induction hab with
      | refl => exact le_refl _
      | step _ ih => exact le_trans ih (by rw [step]; omega)
    have k1 : dbmb (isLeap y) m + (d - 1) < dbmb (isLeap y) (m + 1) := by
      rw [step]
      have : d ≤ dimb (isLeap y) m := h4
      omega
    have k2 : dbmb (isLeap y) (m + 1) ≤ dbmb (isLeap y) m' := mono _ _ (by omega)
    omega
  · unfold toDays
    omega

theorem toDays_lt_iff {y m d y' m' d' : Nat} (h : wfCivil y m d) (h' : wfCivil y' m' d') :
    toDays y m d < toDays y' m' d' ↔ lexC y m d y' m' d' := by
  constructor
  · intro hlt
    by_contra hnl
    have htri : (y = y' ∧ m = m' ∧ d = d') ∨ lexC y' m' d' y m d := by
      simp only [lexC] at hnl ⊢
      omega
    rcases htri with ⟨rfl, rfl, rfl⟩ | hgt
    · exact absurd hlt (lt_irrefl _)
    · have := toDays_lt_of_lex h' h hgt
      omega
  · exact toDays_lt_of_lex h h'

theorem wfCivil_of_valid {dt : DateTime} (h : validDT dt) : wfCivil dt.year dt.month dt.day := by
  obtain ⟨-, -, h3, h4, h5, h6, -, -, -⟩ := h
  exact ⟨h3, h4, h5, h6⟩

theorem toMin_lt_iff {a b : DateTime} (ha : validDT a) (hb : validDT b) :
    toMin a < toMin b ↔ lex5 a b := by
  have hwa := wfCivil_of_valid ha
  have hwb := wfCivil_of_valid hb
  have h1 := toDays_lt_iff hwa hwb
  have h2 := toDays_lt_iff hwb hwa
  have hmA : a.hour ≤ 23 ∧ a.minute ≤ 59 := by
    obtain ⟨-, -, -, -, -, -, h7, h8, -⟩ := ha
    exact ⟨h7, h8⟩
  have hmB : b.hour ≤ 23 ∧ b.minute ≤ 59 := by
    obtain ⟨-, -, -, -, -, -, h7, h8, -⟩ := hb
    exact ⟨h7, h8⟩
  have h3 : toDays a.year a.month a.day = toDays b.year b.month b.day ↔
      (a.year = b.year ∧ a.month = b.month ∧ a.day = b.day) := by
    constructor
    · intro he
      by_contra hne
      have : lexC a.year a.month a.day b.year b.month b.day ∨
          lexC b.year b.month b.day a.year a.month a.day := by
        simp only [lexC] at hne ⊢
        omega
      rcases this with hc | hc
      · have := h1.mpr hc; omega
      · have := h2.mpr hc; omega
    · rintro ⟨e1, e2, e3⟩
      rw [e1, e2, e3]
  unfold toMin lex5
  constructor
  · intro hlt
    rcases Nat.lt_trichotomy (toDays a.year a.month a.day) (toDays b.year b.month b.day)
      with h | h | h
    · exact .inl (h1.mp h)
    · obtain ⟨e1, e2, e3⟩ := h3.mp h
      exact .inr ⟨e1, e2, e3, by omega⟩
    · omega
  · rintro (h | ⟨e1, e2, e3, hlex⟩)
    · have := h1.mpr h
      omega
    · have : toDays a.year a.month a.day = toDays b.year b.month b.day := by rw [e1, e2, e3]
      omega

theorem canon_lt_lex {a b : DateTime} (ha : validDT a) (hb : validDT b) :
    (ltB (canon a) (canon b) = true) ↔ lex5 a b := by
  have hy : a.year < 10000 := by obtain ⟨-, h, -⟩ := ha; omega
  have hy' : b.year < 10000 := by obtain ⟨-, h, -⟩ := hb; omega
  have hmo : a.month < 100 := by obtain ⟨-, -, -, h, -⟩ := ha; omega
  have hmo' : b.month < 100 := by obtain ⟨-, -, -, h, -⟩ := hb; omega
  have hd : a.day < 100 := by
    obtain ⟨-, -, -, h4, -, h6, -⟩ := ha
    have := daysInMonth_le31 (y := a.year) h4
    omega
  have hd' : b.day < 100 := by
    obtain ⟨-, -, -, h4, -, h6, -⟩ := hb
    have := daysInMonth_le31 (y := b.year) h4
    omega
  have hh : a.hour < 100 := by obtain ⟨-, -, -, -, -, -, h, -⟩ := ha; omega
  have hh' : b.hour < 100 := by obtain ⟨-, -, -, -, -, -, h, -⟩ := hb; omega
  have hmi : a.minute < 100 := by obtain ⟨-, -, -, -, -, -, -, h, -⟩ := ha; omega
  have hmi' : b.minute < 100 := by obtain ⟨-, -, -, -, -, -, -, h, -⟩ := hb; omega
  simp only [canon, canonDay, dayStrOf, List.append_assoc, List.cons_append]
  rw [pad4_lt hy hy', ltB_cons_same, pad2_lt hmo hmo', ltB_cons_same, pad2_lt hd hd',
    ltB_cons_same, pad2_lt hh hh', ltB_cons_same, pad2_lt_nil hmi hmi']
  simp only [lex5, lexC]
  omega

/-- The order bridge: on valid instants, SQLite's string comparison of the
canonical renderings is exactly chronological comparison of the instants.
(Seconds play no role: the canonical format has none.) -/
theorem ltB_canon_iff {a b : DateTime} (ha : validDT a) (hb : validDT b) :
    (ltB (canon a) (canon b) = true) ↔ toMin a < toMin b :=
  (canon_lt_lex ha hb).trans (toMin_lt_iff ha hb).symm

/-! ## Day-stepping and timedelta lemmas -/

theorem nextDayO_spec {y m d y' m' d' : Nat} (h : wfCivil y m d) (hy : y ≤ 9999)
    (he : nextDayO y m d = some (y', m', d')) :
    wfCivil y' m' d' ∧ y ≤ y' ∧ y' ≤ 9999 ∧ toDays y' m' d' = toDays y m d + 1 := by
  obtain ⟨h1, h2, h3, h4⟩ := h
  unfold daysInMonth at h4
  unfold nextDayO at he
  split_ifs at he with c1 c2 c3
  · simp only [Option.some.injEq, Prod.mk.injEq] at he
    obtain ⟨rfl, rfl, rfl⟩ := he
    refine ⟨⟨h1, h2, by omega, ?_⟩, le_refl _, hy, ?_⟩
    · unfold daysInMonth
      unfold daysInMonth at c1
      omega
    · unfold toDays
      omega
  · simp only [Option.some.injEq, Prod.mk.injEq] at he
    obtain ⟨rfl, rfl, rfl⟩ := he
    have hd : d = dimb (isLeap y) m := by unfold daysInMonth at c1; omega
    have step : dbmb (isLeap y) (m + 1) = dbmb (isLeap y) m + dimb (isLeap y) m := rfl
    refine ⟨⟨by omega, by omega, le_refl _, ?_⟩, le_refl _, hy, ?_⟩
    · unfold daysInMonth
      exact dimb_pos _ (m + 1) (by omega) (by omega)
    · unfold toDays
      omega
  · simp only [Option.some.injEq, Prod.mk.injEq] at he
    obtain ⟨rfl, rfl, rfl⟩ := he
    have hm : m = 12 := by omega
    subst hm
    have hd : d = 31 := by
      unfold daysInMonth at c1
      have e31 : dimb (isLeap y) 12 = 31 := by cases isLeap y <;> rfl
      omega
    subst hd
    refine ⟨⟨by omega, by omega, by omega, ?_⟩, by omega, by omega, ?_⟩
    · unfold daysInMonth
      exact dimb_pos _ 1 (by omega) (by omega)
    · unfold toDays
      have e0 : dbmb (isLeap (y + 1)) 1 = 0 := by cases isLeap (y + 1) <;> rfl
      have e1 : dby (y + 1) = dby y + daysInYear y := dby_succ y
      have e2 : dbmb (isLeap y) 12 + 31 = daysInYear y := by
        unfold daysInYear
        cases isLeap y <;> simp <;> rfl
      omega

theorem prevDayO_spec {y m d y' m' d' : Nat} (h : wfCivil y m d) (hy1 : 1 ≤ y)
    (hy : y ≤ 9999) (he : prevDayO y m d = some (y', m', d')) :
    wfCivil y' m' d' ∧ 1 ≤ y' ∧ y' ≤ y ∧ toDays y m d = toDays y' m' d' + 1 := by
  obtain ⟨h1, h2, h3, h4⟩ := h
  unfold daysInMonth at h4
  unfold prevDayO at he
  split_ifs at he with c1 c2 c3
  · simp only [Option.some.injEq, Prod.mk.injEq] at he
    obtain ⟨rfl, rfl, rfl⟩ := he
    refine ⟨⟨h1, h2, by omega, by unfold daysInMonth; omega⟩, hy1, le_refl _, ?_⟩
    unfold toDays
    omega
  · simp only [Option.some.injEq, Prod.mk.injEq] at he
    obtain ⟨rfl, rfl, rfl⟩ := he
    have hd : d = 1 := by omega
    subst hd
    have hpos : 1 ≤ dimb (isLeap y) (m - 1) := dimb_pos _ (m - 1) (by omega) (by omega)
    have step : dbmb (isLeap y) (m - 1 + 1) = dbmb (isLeap y) (m - 1) + dimb (isLeap y) (m - 1) :=
      rfl
    have hm1 : m - 1 + 1 = m := by omega
    rw [hm1] at step
    have hdim : daysInMonth y (m - 1) = dimb (isLeap y) (m - 1) := rfl
    refine ⟨⟨by omega, by omega, hpos, by unfold daysInMonth; omega⟩, hy1, le_refl _, ?_⟩
    unfold toDays
    omega
  · simp only [Option.some.injEq, Prod.mk.injEq] at he
    obtain ⟨rfl, rfl, rfl⟩ := he
    have hm : m = 1 := by omega
    have hd : d = 1 := by omega
    subst hm
    subst hd
    have e31 : dimb (isLeap (y - 1)) 12 = 31 := by cases isLeap (y - 1) <;> rfl
    refine ⟨⟨by omega, by omega, by omega, by unfold daysInMonth; omega⟩, by omega, by omega, ?_⟩
    unfold toDays
    have e0 : dbmb (isLeap y) 1 = 0 := by cases isLeap y <;> rfl
    have e1 : dby (y - 1 + 1) = dby (y - 1) + daysInYear (y - 1) := dby_succ (y - 1)
    have hyy : y - 1 + 1 = y := by omega
    rw [hyy] at e1
    have e2 : dbmb (isLeap (y - 1)) 12 + 31 = daysInYear (y - 1) := by
      unfold daysInYear
      cases isLeap (y - 1) <;> simp <;> rfl
    omega

theorem add59_spec {dt e : DateTime} (hv : validDT dt) (he : add59 dt = some e) :
    validDT e ∧ toMin e = toMin dt + 59 := by
  obtain ⟨h1, h2, h3, h4, h5, h6, h7, h8, h9⟩ := hv
  unfold add59 at he
  split_ifs at he with c1
  · simp only [Option.some.injEq] at he
    subst he
    unfold validDT toMin
    dsimp only
    omega
  · rcases hn : nextDayO dt.year dt.month dt.day with - | ⟨y', m', d'⟩
    · rw [hn] at he
      exact absurd he (by simp)
    · rw [hn] at he
      simp only [Option.some.injEq] at he
      subst he
      obtain ⟨⟨w1, w2, w3, w4⟩, wy1, wy2, wd⟩ :=
        nextDayO_spec ⟨h3, h4, h5, h6⟩ h2 hn
      unfold validDT toMin
      dsimp only
      omega

theorem sub59_spec {dt s : DateTime} (hv : validDT dt) (he : sub59 dt = some s) :
    validDT s ∧ toMin s + 59 = toMin dt := by
  obtain ⟨h1, h2, h3, h4, h5, h6, h7, h8, h9⟩ := hv
  unfold sub59 at he
  split_ifs at he with c1
  · simp only [Option.some.injEq] at he
    subst he
    unfold validDT toMin
    dsimp only
    omega
  · rcases hn : prevDayO dt.year dt.month dt.day with - | ⟨y', m', d'⟩
    · rw [hn] at he
      exact absurd he (by simp)
    · rw [hn] at he
      simp only [Option.some.injEq] at he
      subst he
      obtain ⟨⟨w1, w2, w3, w4⟩, wy1, wy2, wd⟩ :=
        prevDayO_spec ⟨h3, h4, h5, h6⟩ h1 h2 hn
      unfold validDT toMin
      dsimp only
      omega

/-- Inside working hours the backward step never leaves the day, so the
`OverflowError` case cannot arise on the create path. -/
theorem sub59_total {dt : DateTime} (h8 : WORK_START ≤ dt.hour) :
    ∃ s, sub59 dt = some s := by
  refine ⟨{ dt with
            hour := (dt.hour * 60 + dt.minute - 59) / 60,
            minute := (dt.hour * 60 + dt.minute - 59) % 60 }, ?_⟩
  unfold sub59
  rw [if_pos (by unfold WORK_START at h8; omega)]

/-- Inside working hours the forward step never leaves the day either. -/
theorem add59_total {dt : DateTime} (hv : validDT dt) (h16 : dt.hour < WORK_END) :
    ∃ e, add59 dt = some e := by
  obtain ⟨-, -, -, -, -, -, -, h8, -⟩ := hv
  refine ⟨{ dt with
            hour := (dt.hour * 60 + dt.minute + 59) / 60,
            minute := (dt.hour * 60 + dt.minute + 59) % 60 }, ?_⟩
  unfold add59
  rw [if_pos (by unfold WORK_END at h16; omega)]

/-! ## Parser lemmas: the canonical string round-trips through `strptime` -/

theorem takeUpTo_exact {ds r : List Char} {k : Nat} (hk : ds.length = k)
    (hd : ∀ c ∈ ds, isDig c = true) : takeUpTo k (ds ++ r) = (ds, r) := by
  induction ds generalizing k with
  | nil => subst hk; rfl
  | cons c cs ih =>
    subst hk
    have hdc : isDig c = true := hd c (List.mem_cons_self c cs)
    have hrec := ih (k := cs.length) rfl (fun x hx => hd x (List.mem_cons_of_mem _ hx))
    simp only [List.cons_append, List.length_cons, takeUpTo, hdc, if_true, List.append_eq, hrec]

theorem pad2_digits {n : Nat} (hn : n < 100) : ∀ c ∈ pad2 n, isDig c = true := by
  intro c hc
  simp only [pad2, List.mem_cons, List.not_mem_nil, or_false] at hc
  rcases hc with rfl | rfl
  · exact digit_isDig _ (by omega)
  · exact digit_isDig _ (by omega)

theorem pad4_digits {y : Nat} (hy : y < 10000) : ∀ c ∈ pad4 y, isDig c = true := by
  intro c hc
  simp only [pad4, List.mem_append] at hc
  rcases hc with hc | hc
  · exact pad2_digits (by omega) c hc
  · exact pad2_digits (by omega) c hc

theorem foldl_pad2 {n : Nat} (hn : n < 100) (acc : Nat) :
    (pad2 n).foldl (fun a c => a * 10 + (c.toNat - 48)) acc = acc * 100 + n := by
  simp only [pad2, List.foldl, digit_toNat (n / 10) (by omega), digit_toNat (n % 10) (by omega)]
  omega

theorem digitsVal_pad2 {n : Nat} (hn : n < 100) : digitsVal (pad2 n) = n := by
  unfold digitsVal
  rw [foldl_pad2 hn]
  omega

theorem digitsVal_pad4 {y : Nat} (hy : y < 10000) : digitsVal (pad4 y) = y := by
  unfold digitsVal pad4
  rw [List.foldl_append, foldl_pad2 (by omega), foldl_pad2 (by omega)]
  omega

theorem parseNum2_pad {n : Nat} (hn : n < 100) (r : List Char) :
    parseNum2 (pad2 n ++ r) = some (n, r) := by
  unfold parseNum2
  have h2 : takeUpTo 2 (pad2 n ++ r) = (pad2 n, r) := takeUpTo_exact rfl (pad2_digits hn)
  rw [h2]
  have hne : (pad2 n).isEmpty = false := rfl
  simp [hne, digitsVal_pad2 hn]

theorem parseNum4_pad {y : Nat} (hy : y < 10000) (r : List Char) :
    parseNum4 (pad4 y ++ r) = some (y, r) := by
  unfold parseNum4
  have h4 : takeUpTo 4 (pad4 y ++ r) = (pad4 y, r) := takeUpTo_exact rfl (pad4_digits hy)
  rw [h4]
  have hl : (pad4 y).length = 4 := rfl
  simp [hl, digitsVal_pad4 hy]

theorem runToks_dirY {ts : List FmtTok} {r : List Char} {v : PVals} {y : Nat} (hy : y < 10000) :
    runToks (.dirY :: ts) (pad4 y ++ r) v = runToks ts r { v with y := y } := by
  simp only [runToks, parseNum4_pad hy]

theorem runToks_dirm {ts : List FmtTok} {r : List Char} {v : PVals} {n : Nat}
    (h1 : 1 ≤ n) (h2 : n ≤ 12) :
    runToks (.dirm :: ts) (pad2 n ++ r) v = runToks ts r { v with mo := n } := by
  simp only [runToks, parseNum2_pad (show n < 100 by omega)]
  rw [if_pos ⟨h1, h2⟩]

theorem runToks_dird {ts : List FmtTok} {r : List Char} {v : PVals} {n : Nat}
    (h1 : 1 ≤ n) (h2 : n ≤ 31) :
    runToks (.dird :: ts) (pad2 n ++ r) v = runToks ts r { v with d := n } := by
  simp only [runToks, parseNum2_pad (show n < 100 by omega)]
  rw [if_pos ⟨h1, h2⟩]

theorem runToks_dirH {ts : List FmtTok} {r : List Char} {v : PVals} {n : Nat} (h : n ≤ 23) :
    runToks (.dirH :: ts) (pad2 n ++ r) v = runToks ts r { v with h := n } := by
  simp only [runToks, parseNum2_pad (show n < 100 by omega)]
  rw [if_pos h]

theorem runToks_dirM {ts : List FmtTok} {r : List Char} {v : PVals} {n : Nat} (h : n ≤ 59) :
    runToks (.dirM :: ts) (pad2 n ++ r) v = runToks ts r { v with mi := n } := by
  simp only [runToks, parseNum2_pad (show n < 100 by omega)]
  rw [if_pos h]

theorem runToks_lit_eq {ts : List FmtTok} {x c : Char} {r : List Char} {v : PVals}
    (h : x.toLower = c.toLower) : runToks (.lit c :: ts) (x :: r) v = runToks ts r v := by
  simp only [runToks]
  rw [if_pos h]

theorem runToks_lit_ne {ts : List FmtTok} {x c : Char} {r : List Char} {v : PVals}
    (h : ¬ x.toLower = c.toLower) : runToks (.lit c :: ts) (x :: r) v = none := by
  simp only [runToks]
  rw [if_neg h]

theorem runToks_space_digit {ts : List FmtTok} {r : List Char} {v : PVals} {n : Nat}
    (hn : n < 100) :
    runToks (.space :: ts) (' ' :: (pad2 n ++ r)) v = runToks ts (pad2 n ++ r) v := by
  have hdw : (pad2 n ++ r).dropWhile isWS = pad2 n ++ r := by
    simp only [pad2, List.cons_append, List.dropWhile_cons, digit_not_ws (n / 10) (by omega)]
    simp
  simp only [runToks, hdw]
  rw [if_pos (show isWS ' ' = true by decide)]

theorem canon_shape (dt : DateTime) :
    canon dt =
      pad4 dt.year ++
        ('-' :: (pad2 dt.month ++
          ('-' :: (pad2 dt.day ++
            (' ' :: (pad2 dt.hour ++ (':' :: pad2 dt.minute))))))) := by
  simp [canon, canonDay, dayStrOf]

/-- The canonical output re-parses under the short format to the same
instant with seconds zeroed (`datetime.strptime(valid_date_str, "%Y-%m-%d %H:%M")`). -/
theorem tryFormat4_canon {dt : DateTime} (hv : validDT dt) :
    tryFormat fmt4 (canon dt) = some (minTrunc dt) := by
  obtain ⟨h1, h2, h3, h4, h5, h6, h7, h8, h9⟩ := hv
  have hd31 : dt.day ≤ 31 := le_trans h6 (daysInMonth_le31 h4)
  unfold tryFormat fmt4
  rw [canon_shape, runToks_dirY (by omega), runToks_lit_eq rfl, runToks_dirm h3 h4,
    runToks_lit_eq rfl, runToks_dird h5 hd31, runToks_space_digit (by omega),
    runToks_dirH h7, runToks_lit_eq rfl,
    show pad2 dt.minute = pad2 dt.minute ++ [] from (List.append_nil _).symm,
    runToks_dirM h8]
  show mkDT ⟨dt.year, dt.month, dt.day, dt.hour, dt.minute, 0⟩ = _
  unfold mkDT
  dsimp only
  rw [if_pos (show validDT ⟨dt.year, dt.month, dt.day, dt.hour, dt.minute, 0⟩ from
    ⟨h1, h2, h3, h4, h5, h6, h7, h8, Nat.zero_le _⟩)]
  rfl

/-- The ISO format never matches the canonical string (its `T` literal
meets the canonical space). -/
theorem tryFormat1_canon {dt : DateTime} (hv : validDT dt) :
    tryFormat fmt1 (canon dt) = none := by
  obtain ⟨h1, h2, h3, h4, h5, h6, h7, h8, h9⟩ := hv
  have hd31 : dt.day ≤ 31 := le_trans h6 (daysInMonth_le31 h4)
  unfold tryFormat fmt1
  rw [canon_shape, runToks_dirY (by omega), runToks_lit_eq rfl, runToks_dirm h3 h4,
    runToks_lit_eq rfl, runToks_dird h5 hd31, runToks_lit_ne (by decide)]
  rfl

/-- The SQL format never matches the canonical string (it demands a
seconds field the canonical string does not have). -/
theorem tryFormat2_canon {dt : DateTime} (hv : validDT dt) :
    tryFormat fmt2 (canon dt) = none := by
  obtain ⟨h1, h2, h3, h4, h5, h6, h7, h8, h9⟩ := hv
  have hd31 : dt.day ≤ 31 := le_trans h6 (daysInMonth_le31 h4)
  unfold tryFormat fmt2
  rw [canon_shape, runToks_dirY (by omega), runToks_lit_eq rfl, runToks_dirm h3 h4,
    runToks_lit_eq rfl, runToks_dird h5 hd31, runToks_space_digit (by omega),
    runToks_dirH h7, runToks_lit_eq rfl,
    show pad2 dt.minute = pad2 dt.minute ++ [] from (List.append_nil _).symm,
    runToks_dirM h8]
  rfl

/-- The slash format never matches the canonical string (after its `%d`
eats two year digits it expects `/` where a digit stands, when the two
digits are a plausible day at all). -/
theorem tryFormat3_canon {dt : DateTime} (hv : validDT dt) :
    tryFormat fmt3 (canon dt) = none := by
  obtain ⟨h1, h2, h3, h4, h5, h6, h7, h8, h9⟩ := hv
  have hsplit : pad4 dt.year ++
      ('-' :: (pad2 dt.month ++
        ('-' :: (pad2 dt.day ++ (' ' :: (pad2 dt.hour ++ (':' :: pad2 dt.minute))))))) =
      pad2 (dt.year / 100) ++ (pad2 (dt.year % 100) ++
        ('-' :: (pad2 dt.month ++
          ('-' :: (pad2 dt.day ++ (' ' :: (pad2 dt.hour ++ (':' :: pad2 dt.minute)))))))) := by
    simp [pad4]
  unfold tryFormat fmt3
  rw [canon_shape, hsplit]
  by_cases hc : 1 ≤ dt.year / 100 ∧ dt.year / 100 ≤ 31
  · rw [runToks_dird hc.1 hc.2]
    have hhead : pad2 (dt.year % 100) ++
        ('-' :: (pad2 dt.month ++
          ('-' :: (pad2 dt.day ++ (' ' :: (pad2 dt.hour ++ (':' :: pad2 dt.minute))))))) =
        digitChar (dt.year % 100 / 10) ::
          (digitChar (dt.year % 100 % 10) ::
            ('-' :: (pad2 dt.month ++
              ('-' :: (pad2 dt.day ++ (' ' :: (pad2 dt.hour ++ (':' :: pad2 dt.minute)))))))) :=
      by simp [pad2]
    rw [hhead, runToks_lit_ne (digit_ne_slash _ (by omega))]
    rfl
  · simp only [runToks, parseNum2_pad (show dt.year / 100 < 100 by omega)]
    rw [if_neg hc]
    rfl

/-- A digit character is never the stripped zone marker. -/
theorem not_Z_of_isDig {c : Char} (h : isDig c = true) : ¬ c = 'Z' := by
  rintro rfl
  exact absurd h (by decide)

/-- The canonical string contains no `Z`, so the `replace("Z", "")`
prepass leaves it unchanged. -/
theorem stripZ_canon {dt : DateTime} (hv : validDT dt) : stripZ (canon dt) = canon dt := by
  obtain ⟨h1, h2, h3, h4, h5, h6, h7, h8, h9⟩ := hv
  have hd31 : dt.day ≤ 31 := le_trans h6 (daysInMonth_le31 h4)
  unfold stripZ
  rw [List.filter_eq_self]
  intro c hc
  simp only [canon, canonDay, dayStrOf, List.append_assoc, List.cons_append, List.mem_append,
    List.mem_cons] at hc
  simp only [decide_eq_true_eq]
  rcases hc with h | rfl | h | rfl | h | rfl | h | rfl | h
  · exact not_Z_of_isDig (pad4_digits (by omega) c h)
  · decide
  · exact not_Z_of_isDig (pad2_digits (by omega) c h)
  · decide
  · exact not_Z_of_isDig (pad2_digits (by omega) c h)
  · decide
  · exact not_Z_of_isDig (pad2_digits (by omega) c h)
  · decide
  · exact not_Z_of_isDig (pad2_digits (by omega) c h)

/-- On a canonical string, the format loop lands on the short format and
yields the instant with seconds zeroed. -/
theorem tryFormats_canon {dt : DateTime} (hv : validDT dt) :
    tryFormats (canon dt) = some (minTrunc dt) := by
  unfold tryFormats
  rw [tryFormat1_canon hv, tryFormat2_canon hv, tryFormat3_canon hv, tryFormat4_canon hv]

/-! ## Normalization and conflict-check characterization -/

theorem minTrunc_valid {dt : DateTime} (hv : validDT dt) : validDT (minTrunc dt) := by
  obtain ⟨h1, h2, h3, h4, h5, h6, h7, h8, -⟩ := hv
  exact ⟨h1, h2, h3, h4, h5, h6, h7, h8, Nat.zero_le _⟩

theorem canon_minTrunc (dt : DateTime) : canon (minTrunc dt) = canon dt := rfl

theorem toMin_minTrunc (dt : DateTime) : toMin (minTrunc dt) = toMin dt := rfl

theorem tryFormat_valid {f : List FmtTok} {s : List Char} {dt : DateTime}
    (h : tryFormat f s = some dt) : validDT dt := by
  unfold tryFormat at h
  cases hr : runToks f s {} with
  | none => rw [hr] at h; cases h
  | some v =>
    rw [hr] at h
    have h2 : mkDT v = some dt := h
    unfold mkDT at h2
    split_ifs at h2 with hval
    cases h2
    exact hval

theorem tryFormats_valid {s : List Char} {dt : DateTime} (h : tryFormats s = some dt) :
    validDT dt := by
  unfold tryFormats at h
  cases h1 : tryFormat fmt1 s with
  | some v => rw [h1] at h; cases h; exact tryFormat_valid h1
  | none =>
    rw [h1] at h
    cases h2 : tryFormat fmt2 s with
    | some v => rw [h2] at h; cases h; exact tryFormat_valid h2
    | none =>
      rw [h2] at h
      cases h3 : tryFormat fmt3 s with
      | some v => rw [h3] at h; cases h; exact tryFormat_valid h3
      | none =>
        rw [h3] at h
        exact tryFormat_valid h

theorem parse_ok_elim {s : List Char} {now : DateTime} {out : List Char}
    (h : parse_and_validate_date s now = .ok out) :
    ∃ dt, tryFormats (stripZ s) = some dt ∧ validDT dt ∧ dtLt dt now = false ∧
      out = canon dt := by
  unfold parse_and_validate_date at h
  cases hf : tryFormats (stripZ s) with
  | none => rw [hf] at h; cases h
  | some dt =>
    rw [hf] at h
    have h2 : (if dtLt dt now then Except.error (Err.pastDate (canonDay now))
        else Except.ok (canon dt)) = Except.ok out := h
    split_ifs at h2 with hp
    cases h2
    exact ⟨dt, rfl, tryFormats_valid hf, by simpa using hp, rfl⟩

theorem storedMin_canon {r : Row} {u : DateTime} (hu : validDT u)
    (hr : r.appointment_date = canon u) : storedMin r = toMin u := by
  unfold storedMin storedDT
  rw [hr, tryFormat4_canon hu]
  rfl

theorem rowsForCheck_sub {rows : List Row} {ex : Option Nat} {r : Row}
    (h : r ∈ rowsForCheck rows ex) : r ∈ rows := by
  cases ex with
  | none => exact h
  | some i =>
    by_cases hi : i = 0
    · subst hi
      exact h
    · have h2 : r ∈ (if i = 0 then rows else rows.filter (fun r => decide (¬ r.id = i))) := h
      rw [if_neg hi] at h2
      exact (List.mem_filter.mp h2).1

theorem mem_rowsForCheck {rows : List Row} {i : Nat} (hi : ¬ i = 0) {r : Row}
    (hr : r ∈ rows) (hne : ¬ r.id = i) : r ∈ rowsForCheck rows (some i) := by
  show r ∈ (if i = 0 then rows else rows.filter (fun r => decide (¬ r.id = i)))
  rw [if_neg hi]
  exact List.mem_filter.mpr ⟨hr, by simpa using hne⟩

theorem check_eq (rows : List Row) {t : DateTime} (ex : Option Nat) {sdt edt : DateTime}
    (hs : sub59 t = some sdt) (he : add59 t = some edt) :
    check_availability rows t ex =
      some (!((rowsForCheck rows ex).any (fun r =>
        ltB (canon sdt) r.appointment_date && ltB r.appointment_date (canon edt)))) := by
  unfold check_availability
  rw [hs, he]

theorem check_row_iff {t : DateTime} {sdt edt : DateTime} {r : Row}
    (hcan : canonicalRow r) (hv : validDT t) (hs : sub59 t = some sdt)
    (he : add59 t = some edt) :
    ((ltB (canon sdt) r.appointment_date && ltB r.appointment_date (canon edt)) = true ↔
      (toMin t < storedMin r + 59 ∧ storedMin r < toMin t + 59)) := by
  obtain ⟨u, hu, -, hdate⟩ := hcan
  obtain ⟨hsv, hsm⟩ := sub59_spec hv hs
  obtain ⟨hev, hem⟩ := add59_spec hv he
  rw [storedMin_canon hu hdate, hdate, Bool.and_eq_true, ltB_canon_iff hsv hu,
    ltB_canon_iff hu hev]
  omega

theorem check_false_iff {rows : List Row} {t : DateTime} (ex : Option Nat) {sdt edt : DateTime}
    (hrows : ∀ r ∈ rowsForCheck rows ex, canonicalRow r) (hv : validDT t) (hs : sub59 t = some sdt)
    (he : add59 t = some edt) :
    (check_availability rows t ex = some false ↔
      ∃ r ∈ rowsForCheck rows ex, toMin t < storedMin r + 59 ∧ storedMin r < toMin t + 59) := by
  rw [check_eq _ _ hs he]
  simp only [Option.some.injEq, Bool.not_eq_false', List.any_eq_true]
  constructor
  · rintro ⟨r, hr, hw⟩
    exact ⟨r, hr, (check_row_iff (hrows r hr) hv hs he).mp hw⟩
  · rintro ⟨r, hr, hw⟩
    exact ⟨r, hr, (check_row_iff (hrows r hr) hv hs he).mpr hw⟩

theorem check_true_iff {rows : List Row} {t : DateTime} (ex : Option Nat) {sdt edt : DateTime}
    (hrows : ∀ r ∈ rowsForCheck rows ex, canonicalRow r) (hv : validDT t) (hs : sub59 t = some sdt)
    (he : add59 t = some edt) :
    (check_availability rows t ex = some true ↔
      ∀ r ∈ rowsForCheck rows ex,
        ¬(toMin t < storedMin r + 59 ∧ storedMin r < toMin t + 59)) := by
  have hsome := check_eq rows ex hs he
  constructor
  · intro h r hr hw
    have hp := (check_row_iff (hrows r hr) hv hs he).mpr hw
    have hany : (rowsForCheck rows ex).any (fun r =>
        ltB (canon sdt) r.appointment_date && ltB r.appointment_date (canon edt)) = true :=
      List.any_eq_true.mpr ⟨r, hr, hp⟩
    rw [hsome, hany] at h
    simp at h
  · intro hall
    rw [hsome]
    cases hany : (rowsForCheck rows ex).any (fun r =>
        ltB (canon sdt) r.appointment_date && ltB r.appointment_date (canon edt)) with
    | false => rfl
    | true =>
      obtain ⟨r, hr, hp⟩ := List.any_eq_true.mp hany
      exact absurd ((check_row_iff (hrows r hr) hv hs he).mp hp)
        (hall r hr)

/-! ## The store invariant is preserved by every endpoint -/

theorem inv_init : Inv ⟨[], 1⟩ := by
  refine ⟨le_refl 1, ?_, ?_, List.Pairwise.nil⟩ <;> intro r hr <;> cases hr

theorem create_inv {st : Store} {now : DateTime} {data : AppointmentCreate} (h : Inv st) :
    Inv (create_appointment st now data).2 := by
  obtain ⟨hnext, hcanon, hids, hpair⟩ := h
  unfold create_appointment
  cases hp : parse_and_validate_date data.appointment_date now with
  | error e => exact ⟨hnext, hcanon, hids, hpair⟩
  | ok validStr =>
    obtain ⟨dt0, hf, hv0, hpast, hout⟩ := parse_ok_elim hp
    subst hout
    dsimp only
    rw [tryFormat4_canon hv0]
    dsimp only
    split_ifs with hh
    · have hP : WORK_START ≤ (minTrunc dt0).hour ∧ (minTrunc dt0).hour < WORK_END := hh
      have hvm : validDT (minTrunc dt0) := minTrunc_valid hv0
      cases hca : check_availability st.rows (minTrunc dt0) none with
      | none => exact ⟨hnext, hcanon, hids, hpair⟩
      | some b =>
        cases b with
        | false => exact ⟨hnext, hcanon, hids, hpair⟩
        | true =>
          obtain ⟨sdt, hs⟩ := sub59_total hP.1
          obtain ⟨edt, he⟩ := add59_total hvm hP.2
          have hall := (check_true_iff none
            (fun r hr => hcanon r (rowsForCheck_sub hr)) hvm hs he).mp hca
          dsimp only
          refine ⟨Nat.le_succ_of_le hnext, ?_, ?_, ?_⟩
          · intro r hr
            rcases List.mem_append.mp hr with hr | hr
            · exact hcanon r hr
            · rcases List.mem_singleton.mp hr with rfl
              exact ⟨minTrunc dt0, hvm, rfl, (canon_minTrunc dt0).symm⟩
          · intro r hr
            rcases List.mem_append.mp hr with hr | hr
            · have := hids r hr
              dsimp only
              omega
            · rcases List.mem_singleton.mp hr with rfl
              exact ⟨hnext, Nat.lt_succ_self _⟩
          · rw [List.pairwise_append]
            refine ⟨hpair, List.pairwise_singleton _ _, ?_⟩
            intro a ha b hb
            rcases List.mem_singleton.mp hb with rfl
            have hid := hids a ha
            have hw := hall a ha
            have hsm : storedMin
                ⟨st.nextId, data.patient_name, data.age, data.service, canon dt0⟩ =
                toMin (minTrunc dt0) :=
              storedMin_canon hvm (canon_minTrunc dt0).symm
            refine ⟨by dsimp only; omega, ?_⟩
            rw [hsm]
            unfold distMin
            omega
    · exact ⟨hnext, hcanon, hids, hpair⟩

theorem update_inv {st : Store} {now : DateTime} {aid : Nat} {dstr : List Char} (h : Inv st) :
    Inv (update_appointment st now aid dstr).2 := by
  obtain ⟨hnext, hcanon, hids, hpair⟩ := h
  unfold update_appointment
  cases hp : parse_and_validate_date dstr now with
  | error e => exact ⟨hnext, hcanon, hids, hpair⟩
  | ok validStr =>
    obtain ⟨dt0, hf, hv0, hpast, hout⟩ := parse_ok_elim hp
    subst hout
    dsimp only
    rw [tryFormat4_canon hv0]
    dsimp only
    split_ifs with hex
    · obtain ⟨rx, hrx, hrid⟩ := List.any_eq_true.mp hex
      rw [decide_eq_true_eq] at hrid
      have haid1 : 1 ≤ aid := by
        have := hids rx hrx
        omega
      have hvm : validDT (minTrunc dt0) := minTrunc_valid hv0
      cases hca : check_availability st.rows (minTrunc dt0) (some aid) with
      | none => exact ⟨hnext, hcanon, hids, hpair⟩
      | some b =>
        cases b with
        | false => exact ⟨hnext, hcanon, hids, hpair⟩
        | true =>
          obtain ⟨sdt, hs, edt, he⟩ :
              ∃ sdt, sub59 (minTrunc dt0) = some sdt ∧
                ∃ edt, add59 (minTrunc dt0) = some edt := by
            unfold check_availability at hca
            cases hss : sub59 (minTrunc dt0) with
            | none => rw [hss] at hca; exact Option.noConfusion hca
            | some sdt =>
              rw [hss] at hca
              cases hee : add59 (minTrunc dt0) with
              | none => rw [hee] at hca; exact Option.noConfusion hca
              | some edt => exact ⟨sdt, rfl, edt, rfl⟩
          have hall := (check_true_iff (some aid)
            (fun r hr => hcanon r (rowsForCheck_sub hr)) hvm hs he).mp hca
          dsimp only
          refine ⟨hnext, ?_, ?_, ?_⟩
          · intro r hr
            rcases List.mem_map.mp hr with ⟨r0, hr0, rfl⟩
            by_cases hcase : r0.id = aid
            · rw [if_pos hcase]
              exact ⟨minTrunc dt0, hvm, rfl, (canon_minTrunc dt0).symm⟩
            · rw [if_neg hcase]
              exact hcanon r0 hr0
          · intro r hr
            rcases List.mem_map.mp hr with ⟨r0, hr0, rfl⟩
            have := hids r0 hr0
            by_cases hcase : r0.id = aid
            · rw [if_pos hcase]
              exact this
            · rw [if_neg hcase]
              exact this
          · rw [List.pairwise_map]
            refine List.Pairwise.imp_of_mem ?_ hpair
            intro a b ha hb hab
            by_cases hA : a.id = aid <;> by_cases hB : b.id = aid
            · exact absurd (hA.trans hB.symm) hab.1
            · rw [if_pos hA, if_neg hB]
              have hsm : storedMin { a with appointment_date := canon dt0 } =
                  toMin (minTrunc dt0) :=
                storedMin_canon hvm (canon_minTrunc dt0).symm
              have hw := hall b (mem_rowsForCheck (by omega) hb hB)
              refine ⟨hab.1, ?_⟩
              rw [hsm]
              unfold distMin
              omega
            · rw [if_neg hA, if_pos hB]
              have hsm : storedMin { b with appointment_date := canon dt0 } =
                  toMin (minTrunc dt0) :=
                storedMin_canon hvm (canon_minTrunc dt0).symm
              have hw := hall a (mem_rowsForCheck (by omega) ha hA)
              refine ⟨hab.1, ?_⟩
              rw [hsm]
              unfold distMin
              omega
            · rw [if_neg hA, if_neg hB]
              exact hab
    · exact ⟨hnext, hcanon, hids, hpair⟩

theorem delete_inv {st : Store} {aid : Nat} (h : Inv st) :
    Inv (delete_appointment st aid).2 := by
  obtain ⟨hnext, hcanon, hids, hpair⟩ := h
  unfold delete_appointment
  split_ifs with hex
  · dsimp only
    refine ⟨hnext, ?_, ?_, ?_⟩
    · intro r hr
      exact hcanon r (List.mem_filter.mp hr).1
    · intro r hr
      exact hids r (List.mem_filter.mp hr).1
    · exact hpair.sublist (List.filter_sublist _)
  · exact ⟨hnext, hcanon, hids, hpair⟩

/-- Every reachable store satisfies the full invariant. -/
theorem reach_inv {st : Store} (h : Reach st) : Inv st := by
  induction h with
  | init => exact inv_init
  | create st now data _ _ ih => exact create_inv ih
  | update st now aid dstr _ _ ih => exact update_inv ih
  | delete st aid _ ih => exact delete_inv ih

/-! ## Remaining helper lemmas for the claim theorems -/

/-- Away from `datetime.min`, the backward timedelta step never overflows. -/
theorem sub59_some (dt : DateTime) (hy : 2 ≤ dt.year) : ∃ s, sub59 dt = some s := by
  unfold sub59
  split_ifs with hc
  · exact ⟨_, rfl⟩
  · unfold prevDayO
    split_ifs with c1 c2 c3
    · exact ⟨_, rfl⟩
    · exact ⟨_, rfl⟩
    · exact ⟨_, rfl⟩
    · omega

/-- Away from `datetime.max`, the forward timedelta step never overflows. -/
theorem add59_some (dt : DateTime) (hy : dt.year ≤ 9998) : ∃ e, add59 dt = some e := by
  unfold add59
  split_ifs with hc
  · exact ⟨_, rfl⟩
  · unfold nextDayO
    split_ifs with c1 c2 c3
    · exact ⟨_, rfl⟩
    · exact ⟨_, rfl⟩
    · exact ⟨_, rfl⟩
    · omega

theorem rowsForCheck_iff {rows : List Row} {ex : Option Nat} (hex : ex ≠ some 0) {r : Row} :
    r ∈ rowsForCheck rows ex ↔ (r ∈ rows ∧ ∀ i, ex = some i → r.id ≠ i) := by
  cases ex with
  | none =>
    exact ⟨fun h => ⟨h, fun i hi => Option.noConfusion hi⟩, fun h => h.1⟩
  | some i =>
    have hi : ¬ i = 0 := fun h => hex (by rw [h])
    constructor
    · intro h
      have h2 : r ∈ (if i = 0 then rows else rows.filter (fun r => decide (¬ r.id = i))) := h
      rw [if_neg hi] at h2
      obtain ⟨hmem, hne⟩ := List.mem_filter.mp h2
      exact ⟨hmem, fun j hj => by cases hj; simpa using hne⟩
    · rintro ⟨hmem, hne⟩
      exact mem_rowsForCheck hi hmem (hne i rfl)

theorem rowsForCheck_id {rows : List Row} {i : Nat} (hi : ¬ i = 0) {r : Row}
    (h : r ∈ rowsForCheck rows (some i)) : ¬ r.id = i := by
  have h2 : r ∈ (if i = 0 then rows else rows.filter (fun r => decide (¬ r.id = i))) := h
  rw [if_neg hi] at h2
  simpa using (List.mem_filter.mp h2).2

theorem minTrunc_eq_self {dt : DateTime} (h : dt.second = 0) : minTrunc dt = dt := by
  cases dt
  simp only [minTrunc]
  simp_all

theorem digit_toLower_eq_iff :
    ∀ a < 10, ∀ b < 10, ((digitChar a).toLower = (digitChar b).toLower ↔ a = b) := by decide

theorem isPrefixCI_day {y m d y' m' d' : Nat} (hy : y < 10000) (hm : m < 100) (hd : d < 100)
    (hy' : y' < 10000) (hm' : m' < 100) (hd' : d' < 100) (rest : List Char) :
    (isPrefixCI (dayStrOf y m d) (dayStrOf y' m' d' ++ rest) = true) ↔
      (y = y' ∧ m = m' ∧ d = d') := by
  simp only [dayStrOf, pad4, pad2, List.cons_append, List.append_assoc, List.nil_append,
    isPrefixCI, Bool.and_eq_true, decide_eq_true_eq]
  rw [digit_toLower_eq_iff _ (by omega) _ (by omega), digit_toLower_eq_iff _ (by omega) _
    (by omega), digit_toLower_eq_iff _ (by omega) _ (by omega), digit_toLower_eq_iff _
    (by omega) _ (by omega), digit_toLower_eq_iff _ (by omega) _ (by omega),
    digit_toLower_eq_iff _ (by omega) _ (by omega), digit_toLower_eq_iff _ (by omega) _
    (by omega), digit_toLower_eq_iff _ (by omega) _ (by omega)]
  simp only [eq_self_iff_true, true_and, and_true]
  omega

theorem mapO_all_some {l : List Row} {f : Row → Option Nat} {g : Row → Nat}
    (h : ∀ r ∈ l, f r = some (g r)) : mapO l f = some (l.map g) := by
  induction l with
  | nil => rfl
  | cons r rs ih =>
    unfold mapO
    rw [h r (List.mem_cons_self r rs), ih (fun x hx => h x (List.mem_cons_of_mem _ hx))]
    rfl

theorem any_congr_mem {l : List Row} {p q : Row → Bool} (h : ∀ r ∈ l, p r = q r) :
    l.any p = l.any q := by
  induction l with
  | nil => rfl
  | cons r rs ih =>
    simp only [List.any_cons, h r (List.mem_cons_self r rs),
      ih (fun x hx => h x (List.mem_cons_of_mem _ hx))]

theorem any_filter_row {l : List Row} {p : Row → Bool} {q : Row → Bool} :
    (l.filter q).any p = l.any (fun r => q r && p r) := by
  induction l with
  | nil => rfl
  | cons r rs ih =>
    by_cases hq : q r = true
    · simp [List.filter_cons, hq, List.any_cons, ih]
    · have hq' : q r = false := by
        cases hqv : q r
        · rfl
        · exact absurd hqv hq
      simp [List.filter_cons, hq', List.any_cons, ih]

/-! ## Claim theorems -/

/-- C1 (counterexample): the claimed no-overlap bound of 60 minutes is
false on the code — from a fresh store, booking `2099-01-10 09:00` and
then `2099-01-10 09:59` both succeed (the strictly-open ±59-minute window
admits starts exactly 59 minutes apart), so a reachable store holds two
distinct live appointments whose start times differ by less than 60
minutes. -/
theorem c1_counterexample :
    Reach exStore2 ∧ ∃ a ∈ exStore2.rows, ∃ b ∈ exStore2.rows, a ≠ b ∧
      distMin (storedMin a) (storedMin b) < 60 := by
  constructor
  · exact Reach.create exStore1 exNow (mkReq ("2099-01-10 09:59".toList))
      (Reach.create ⟨[], 1⟩ exNow (mkReq ("2099-01-10 09:00".toList)) Reach.init (by decide))
      (by decide)
  · decide

/-- C1 (amended): in every store state reachable by any sequence of
create, reschedule and cancel requests, the start times of two distinct
live appointments differ by at least `D - 1 = 59` minutes (the strict
window `(t-59, t+59)` admits distances of exactly 59). -/
theorem c1_no_overlap {st : Store} (h : Reach st) :
    ∀ a ∈ st.rows, ∀ b ∈ st.rows, a ≠ b → 59 ≤ distMin (storedMin a) (storedMin b) := by
  obtain ⟨-, -, hids, hpair⟩ := reach_inv h
  intro a ha b hb hne
  have hsym : Symmetric (fun x y : Row =>
      x.id ≠ y.id ∧ 59 ≤ distMin (storedMin x) (storedMin y)) := by
    rintro x y ⟨h1, h2⟩
    refine ⟨Ne.symm h1, ?_⟩
    unfold distMin at h2 ⊢
    omega
  exact (List.Pairwise.forall hsym hpair ha hb hne).2

/-- C1 (amended, witness): the two bookings of the counterexample store
are exactly 59 minutes apart, and the amended bound holds for them. -/
theorem c1_no_overlap_witness :
    59 ≤ distMin
      (storedMin ⟨1, "Alice".toList, 30, "cleaning".toList, "2099-01-10 09:00".toList⟩)
      (storedMin ⟨2, "Alice".toList, 30, "cleaning".toList, "2099-01-10 09:59".toList⟩) := by
  have hreach : Reach exStore2 :=
    Reach.create exStore1 exNow (mkReq ("2099-01-10 09:59".toList))
      (Reach.create ⟨[], 1⟩ exNow (mkReq ("2099-01-10 09:00".toList)) Reach.init (by decide))
      (by decide)
  exact c1_no_overlap hreach _ (by decide) _ (by decide) (by decide)

/-- C3: the claim is right about the intent (the source's own comment
documents `"2025-12-30T15:00:00Z"` as the ISO example) but the code is
wrong: `replace("Z", "")` strips the zone marker from the input while
format 1 still demands a trailing `Z`, so the documented input matches no
format and normalization fails with `MalformedInput`. -/
theorem c3_iso_zulu_rejected :
    parse_and_validate_date ("2025-12-30T15:00:00Z".toList) exNow = .error .malformed := by
  decide

/-- C4: for every raw string that parses under one of the accepted
formats (after the `Z`-strip), normalization fails with `PastDate`
exactly when the parsed instant is strictly earlier than `now`, the
rejection carries the current date, and otherwise the canonical
minute-precision string of the parsed instant is returned (re-parsing it
yields the instant truncated to minute precision). -/
theorem c4_pastdate_exactness {s : List Char} {now dt : DateTime}
    (h : tryFormats (stripZ s) = some dt) :
    (parse_and_validate_date s now = .error (.pastDate (canonDay now)) ↔
      dtLt dt now = true) ∧
    (dtLt dt now = false →
      parse_and_validate_date s now = .ok (canon dt) ∧
        tryFormat fmt4 (canon dt) = some (minTrunc dt)) := by
  have hv := tryFormats_valid h
  unfold parse_and_validate_date
  rw [h]
  dsimp only
  constructor
  · constructor
    · intro hres
      cases hlt : dtLt dt now with
      | true => rfl
      | false =>
        rw [if_neg (by simp [hlt])] at hres
        exact Except.noConfusion hres
    · intro htrue
      rw [if_pos htrue]
  · intro hfalse
    rw [if_neg (by simp [hfalse])]
    exact ⟨rfl, tryFormat4_canon hv⟩

/-- C4 (witness): `"2020-01-01 09:00"` parses, is before the 2025 clock,
and is rejected as `PastDate` carrying the clock's date. -/
theorem c4_pastdate_witness :
    (parse_and_validate_date ("2020-01-01 09:00".toList) exNow =
        .error (.pastDate (canonDay exNow)) ↔
      dtLt ⟨2020, 1, 1, 9, 0, 0⟩ exNow = true) ∧
    (dtLt ⟨2020, 1, 1, 9, 0, 0⟩ exNow = false →
      parse_and_validate_date ("2020-01-01 09:00".toList) exNow =
          .ok (canon ⟨2020, 1, 1, 9, 0, 0⟩) ∧
        tryFormat fmt4 (canon ⟨2020, 1, 1, 9, 0, 0⟩) =
          some (minTrunc ⟨2020, 1, 1, 9, 0, 0⟩)) :=
  c4_pastdate_exactness (by decide)

/-- C7: deleting an existing id removes exactly its record and reports
`Ok`; deleting a nonexistent id reports `NotFound` and leaves the store
unchanged; hence deleting the same id twice reports `Ok` then
`NotFound`. -/
theorem c7_cancel_observability (st : Store) (aid : Nat) :
    (st.rows.any (fun r => r.id = aid) = true →
      delete_appointment st aid =
        (.ok (), ⟨st.rows.filter (fun r => ¬ r.id = aid), st.nextId⟩)) ∧
    (st.rows.any (fun r => r.id = aid) = false →
      delete_appointment st aid = (.error .notFound, st)) ∧
    ((delete_appointment st aid).1 = .ok () →
      (delete_appointment (delete_appointment st aid).2 aid).1 = .error .notFound) := by
  refine ⟨?_, ?_, ?_⟩
  · intro h
    unfold delete_appointment
    rw [if_pos h]
  · intro h
    unfold delete_appointment
    rw [if_neg (by simp [h])]
  · intro hok
    by_cases h : st.rows.any (fun r => decide (r.id = aid)) = true
    · have hst : (delete_appointment st aid).2 =
          ⟨st.rows.filter (fun r => decide (¬ r.id = aid)), st.nextId⟩ := by
        unfold delete_appointment
        rw [if_pos h]

      rw [hst]
      have hno : ¬ ((st.rows.filter (fun r => decide (¬ r.id = aid))).any
          (fun r => decide (r.id = aid)) = true) := by
        intro hany
        obtain ⟨r, hr, hp⟩ := List.any_eq_true.mp hany
        rw [decide_eq_true_eq] at hp
        have h3 : ¬ r.id = aid := by simpa using (List.mem_filter.mp hr).2
        exact h3 hp
      unfold delete_appointment
      dsimp only
      rw [if_neg hno]
    · have h1 : (delete_appointment st aid).1 = .error .notFound := by
        unfold delete_appointment
        rw [if_neg h]
      rw [h1] at hok
      exact Except.noConfusion hok

/-- C7 (witness): on the one-booking store, cancelling id 1 removes it
and reports `Ok`, cancelling id 99 reports `NotFound` and changes
nothing, and cancelling id 1 twice reports `Ok` then `NotFound`. -/
theorem c7_cancel_witness :
    delete_appointment exStore1 1 =
      (.ok (), ⟨exStore1.rows.filter (fun r => ¬ r.id = 1), exStore1.nextId⟩) ∧
    delete_appointment exStore1 99 = (.error .notFound, exStore1) ∧
    (delete_appointment (delete_appointment exStore1 1).2 1).1 = .error .notFound :=
  ⟨(c7_cancel_observability exStore1 1).1 (by decide),
   (c7_cancel_observability exStore1 99).2.1 (by decide),
   (c7_cancel_observability exStore1 1).2.2 (by decide)⟩

/-- C9: a reschedule either succeeds — and then the resulting store maps
only the targeted record to one with the new `start_time`, all its other
fields and every other record and the id counter unchanged — or fails
(malformed, past, not-found, conflict or the overflow 500), and then the
store is exactly unchanged. -/
theorem c9_reschedule_frame (st : Store) (now : DateTime) (aid : Nat) (dstr : List Char) :
    (∃ s, (update_appointment st now aid dstr).1 = .ok s ∧
        (update_appointment st now aid dstr).2 =
          ⟨st.rows.map (fun r =>
              if r.id = aid then { r with appointment_date := s } else r),
            st.nextId⟩) ∨
    (∃ e, (update_appointment st now aid dstr).1 = .error e ∧
        (update_appointment st now aid dstr).2 = st) := by
  unfold update_appointment
  cases hp : parse_and_validate_date dstr now with
  | error e => exact .inr ⟨e, rfl, rfl⟩
  | ok validStr =>
    dsimp only
    cases hft : tryFormat fmt4 validStr with
    | none => exact .inr ⟨.internal, rfl, rfl⟩
    | some dt =>
      dsimp only
      split_ifs with hex
      · cases hca : check_availability st.rows dt (some aid) with
        | none => exact .inr ⟨.internal, rfl, rfl⟩
        | some b =>
          cases b with
          | false => exact .inr ⟨.conflict, rfl, rfl⟩
          | true => exact .inl ⟨validStr, rfl, rfl⟩
      · exact .inr ⟨.notFound, rfl, rfl⟩

/-- C10: every stored `appointment_date` in every reachable store is the
canonical fixed-width rendering of a real minute-precision instant, and
on such renderings the byte-wise string comparison used by both the
conflict-window range query and the `ORDER BY` listing coincides exactly
with chronological order. -/
theorem c10_canonical_order :
    (∀ st, Reach st → ∀ r ∈ st.rows, ∃ u, validDT u ∧ u.second = 0 ∧
        r.appointment_date = canon u) ∧
    (∀ a b : DateTime, validDT a → validDT b →
      ((ltB (canon a) (canon b) = true) ↔ toMin a < toMin b)) := by
  constructor
  · intro st h r hr
    exact (reach_inv h).2.1 r hr
  · intro a b ha hb
    exact ltB_canon_iff ha hb

/-- C2: for a canonical instant `t` (with the ±59-minute window inside
the `datetime` range, which otherwise raises `OverflowError`) and a
store of canonically stored rows, the conflict check reports Conflict
(`some false`) exactly when some stored appointment other than the
excluded id has its start time strictly inside the open interval
`(t - 59min, t + 59min)`; and creating an appointment exactly `D = 60`
minutes after an existing one succeeds. -/
theorem c2_conflict_decision {rows : List Row} {t : DateTime} {ex : Option Nat}
    (hrows : ∀ r ∈ rows, canonicalRow r) (hv : validDT t)
    (hy2 : 2 ≤ t.year) (hy9 : t.year ≤ 9998) (hex : ex ≠ some 0) :
    ((check_availability rows t ex = some false ↔
      ∃ r ∈ rows, (∀ i, ex = some i → r.id ≠ i) ∧
        toMin t < storedMin r + 59 ∧ storedMin r < toMin t + 59)) ∧
    (create_appointment exStore1 exNow (mkReq ("2099-01-10 10:00".toList))).1 =
      .ok ("2099-01-10 10:00".toList) := by
  obtain ⟨sdt, hs⟩ := sub59_some t (by omega)
  obtain ⟨edt, he⟩ := add59_some t (by omega)
  refine ⟨?_, by decide⟩
  rw [check_false_iff ex (fun r hr => hrows r (rowsForCheck_sub hr)) hv hs he]
  constructor
  · rintro ⟨r, hr, hw⟩
    obtain ⟨hm, hni⟩ := (rowsForCheck_iff hex).mp hr
    exact ⟨r, hm, hni, hw⟩
  · rintro ⟨r, hm, hni, hw⟩
    exact ⟨r, (rowsForCheck_iff hex).mpr ⟨hm, hni⟩, hw⟩

/-- C2 (witness): against the store holding `2099-01-10 09:00`, the check
for `2099-01-10 09:30` with no exclusion reports Conflict, matching the
window condition; and the 60-minute boundary create succeeds. -/
theorem c2_conflict_witness :
    ((check_availability exStore1.rows ⟨2099, 1, 10, 9, 30, 0⟩ none = some false ↔
      ∃ r ∈ exStore1.rows, (∀ i, (none : Option Nat) = some i → r.id ≠ i) ∧
        toMin ⟨2099, 1, 10, 9, 30, 0⟩ < storedMin r + 59 ∧
          storedMin r < toMin ⟨2099, 1, 10, 9, 30, 0⟩ + 59)) ∧
    (create_appointment exStore1 exNow (mkReq ("2099-01-10 10:00".toList))).1 =
      .ok ("2099-01-10 10:00".toList) := by
  refine c2_conflict_decision ?_ (by decide) (by decide) (by decide) (by decide)
  intro r hr
  have h1 : r ∈ [(⟨1, "Alice".toList, 30, "cleaning".toList,
      "2099-01-10 09:00".toList⟩ : Row)] := hr
  have h2 := List.mem_singleton.mp h1
  subst h2
  exact ⟨⟨2099, 1, 10, 9, 0, 0⟩, by decide, rfl, by decide⟩

/-- C5: on the create path, once the date normalizes to the instant `dt`,
the request is rejected as `OutOfHours` exactly when
`¬(WORK_START ≤ dt.hour < WORK_END)`; a 16:00 booking is rejected
(exclusive upper bound) while an 08:00 booking passes the working-hours
check — on any day of the week, since only the hour-of-day is tested. -/
theorem c5_working_hours {st : Store} {now : DateTime} {data : AppointmentCreate}
    {s : List Char} {dt : DateTime}
    (hok : parse_and_validate_date data.appointment_date now = .ok s)
    (hdt : tryFormat fmt4 s = some dt) :
    ((create_appointment st now data).1 = .error .outOfHours ↔
      ¬(WORK_START ≤ dt.hour ∧ dt.hour < WORK_END)) ∧
    (create_appointment exStore1 exNow (mkReq ("2099-01-10 16:00".toList))).1 =
      .error .outOfHours ∧
    (create_appointment ⟨[], 1⟩ exNow (mkReq ("2099-01-11 08:00".toList))).1 ≠
      .error .outOfHours := by
  refine ⟨?_, by decide, by decide⟩
  unfold create_appointment
  rw [hok]
  dsimp only
  rw [hdt]
  dsimp only
  split_ifs with hh
  · refine iff_of_false ?_ (not_not_intro hh)
    intro hres
    cases hca : check_availability st.rows dt none with
    | none =>
      rw [hca] at hres
      exact absurd (show (Except.error Err.internal : Except Err (List Char)) =
        .error .outOfHours from hres) (by decide)
    | some b =>
      cases b with
      | false =>
        rw [hca] at hres
        exact absurd (show (Except.error Err.conflict : Except Err (List Char)) =
          .error .outOfHours from hres) (by decide)
      | true =>
        rw [hca] at hres
        exact Except.noConfusion (show (Except.ok s : Except Err (List Char)) =
          .error .outOfHours from hres)
  · exact iff_of_true rfl hh

/-- C5 (witness): the boundary instances at the one-booking store — a
16:00 request is `OutOfHours` (matching the hour test for hour 16), an
08:00 request is not. -/
theorem c5_working_hours_witness :
    ((create_appointment exStore1 exNow (mkReq ("2099-01-10 16:00".toList))).1 =
        .error .outOfHours ↔
      ¬(WORK_START ≤ (⟨2099, 1, 10, 16, 0, 0⟩ : DateTime).hour ∧
        (⟨2099, 1, 10, 16, 0, 0⟩ : DateTime).hour < WORK_END)) ∧
    (create_appointment exStore1 exNow (mkReq ("2099-01-10 16:00".toList))).1 =
      .error .outOfHours ∧
    (create_appointment ⟨[], 1⟩ exNow (mkReq ("2099-01-11 08:00".toList))).1 ≠
      .error .outOfHours :=
  @c5_working_hours exStore1 exNow (mkReq ("2099-01-10 16:00".toList))
    ("2099-01-10 16:00".toList) ⟨2099, 1, 10, 16, 0, 0⟩ (by decide) (by decide)

theorem bool_eq_of_iff {a b : Bool} (h : a = true ↔ b = true) : a = b := by
  cases a <;> cases b <;> simp_all

/-- C6: for every calendar day and canonically stored rows, the
availability endpoint returns, in ascending order, exactly the
whole-hour labels of `[WORK_START, WORK_END)` on which no stored
appointment's start time falls by hour-equality; in particular after
booking 09:30 the slot 09:00 is omitted (hour-equality, not the ±59
window), while a 09:05 booking attempt is still rejected as Conflict
(window rule). -/
theorem c6_free_slots {rows : List Row} {y m d : Nat} (hwf : wfCivil y m d)
    (hy : y ≤ 9999) (hrows : ∀ r ∈ rows, canonicalRow r) :
    (get_availability rows (dayStrOf y m d) =
      some (((List.range' WORK_START (WORK_END - WORK_START)).filter
        (fun h => !(rows.any (fun r => onHourB r y m d h)))).map slotLabel)) ∧
    (get_availability exStoreHalf.rows ("2099-01-10".toList) =
      some ["08:00".toList, "10:00".toList, "11:00".toList, "12:00".toList,
        "13:00".toList, "14:00".toList, "15:00".toList]) ∧
    (create_appointment exStoreHalf exNow (mkReq ("2099-01-10 09:05".toList))).1 =
      .error .conflict := by
  obtain ⟨hm1, hm2, hd1, hd2⟩ := hwf
  have hd31 : d ≤ 31 := le_trans hd2 (daysInMonth_le31 hm2)
  refine ⟨?_, by decide, by decide⟩
  unfold get_availability
  rw [mapO_all_some (g := storedHour) ?hparse]
  case hparse =>
    intro r hrF
    obtain ⟨u, hu, -, hud⟩ := hrows r (List.mem_filter.mp hrF).1
    unfold storedHour storedDT
    rw [hud, tryFormat4_canon hu]
    rfl
  dsimp only [Option.map]
  congr 1
  congr 1
  apply List.filter_congr
  intro h hmem
  congr 1
  apply bool_eq_of_iff
  rw [List.elem_iff, List.any_eq_true]
  constructor
  · intro hmemb
    obtain ⟨r, hrF, hhr⟩ := List.mem_map.mp hmemb
    obtain ⟨hrm, hpf⟩ := List.mem_filter.mp hrF
    obtain ⟨u, hu, -, hud⟩ := hrows r hrm
    obtain ⟨hv1, hv2, hv3, hv4, hv5, hv6, hv7, hv8, hv9⟩ := id hu
    have hday : u.year = y ∧ u.month = m ∧ u.day = d := by
      rw [hud] at hpf
      have hshape : canon u = dayStrOf u.year u.month u.day ++
          (' ' :: (pad2 u.hour ++ ':' :: pad2 u.minute)) := rfl
      rw [hshape] at hpf
      have hud31 : u.day ≤ 31 := le_trans hv6 (daysInMonth_le31 hv4)
      have := (isPrefixCI_day (by omega) (by omega) (by omega) (by omega) (by omega)
        (by omega) _).mp hpf
      omega
    refine ⟨r, hrm, ?_⟩
    unfold onHourB storedDT
    rw [hud, tryFormat4_canon hu]
    have hhour : u.hour = h := by
      unfold storedHour storedDT at hhr
      rw [hud, tryFormat4_canon hu] at hhr
      exact hhr
    simp only [decide_eq_true_eq]
    exact ⟨hday.1, hday.2.1, hday.2.2, hhour⟩
  · rintro ⟨r, hrm, hon⟩
    obtain ⟨u, hu, -, hud⟩ := hrows r hrm
    obtain ⟨hv1, hv2, hv3, hv4, hv5, hv6, hv7, hv8, hv9⟩ := id hu
    unfold onHourB storedDT at hon
    rw [hud, tryFormat4_canon hu] at hon
    simp only [decide_eq_true_eq] at hon
    obtain ⟨he1, he2, he3, he4⟩ := hon
    apply List.mem_map.mpr
    refine ⟨r, List.mem_filter.mpr ⟨hrm, ?_⟩, ?_⟩
    · rw [hud]
      have hshape : canon u = dayStrOf u.year u.month u.day ++
          (' ' :: (pad2 u.hour ++ ':' :: pad2 u.minute)) := rfl
      rw [hshape]
      have hud31 : u.day ≤ 31 := le_trans hv6 (daysInMonth_le31 hv4)
      exact (isPrefixCI_day (by omega) (by omega) (by omega) (by omega) (by omega)
        (by omega) _).mpr ⟨he1.symm, he2.symm, he3.symm⟩
    · unfold storedHour storedDT
      rw [hud, tryFormat4_canon hu]
      exact he4

/-- C6 (witness): the general slot rule applied to the 09:30 store and
the day `2099-01-10` — hour 9 is occupied by hour-equality. -/
theorem c6_free_slots_witness :
    get_availability exStoreHalf.rows (dayStrOf 2099 1 10) =
      some (((List.range' WORK_START (WORK_END - WORK_START)).filter
        (fun h => !(exStoreHalf.rows.any (fun r => onHourB r 2099 1 10 h)))).map
          slotLabel) := by
  refine (c6_free_slots (by decide) (by decide) ?_).1
  intro r hr
  have h1 : r ∈ [(⟨1, "Alice".toList, 30, "cleaning".toList,
      "2099-01-10 09:30".toList⟩ : Row)] := hr
  have h2 := List.mem_singleton.mp h1
  subst h2
  exact ⟨⟨2099, 1, 10, 9, 30, 0⟩, by decide, rfl, by decide⟩

/-- C8: rescheduling a live appointment to its own current start time
succeeds — its own record, though strictly inside the conflict window,
is excluded from the check — provided its stored time is a valid future
instant within working hours and every other appointment is at least 59
minutes away (i.e. does not conflict). -/
theorem c8_reschedule_self {st : Store} {now : DateTime} {r : Row} {dt : DateTime}
    (hr : r ∈ st.rows) (hv : validDT dt) (hsec : dt.second = 0)
    (hdate : r.appointment_date = canon dt) (hfuture : dtLt dt now = false)
    (hh8 : WORK_START ≤ dt.hour) (hh16 : dt.hour < WORK_END) (hid : 1 ≤ r.id)
    (hothers : ∀ r' ∈ st.rows, r'.id ≠ r.id →
      ∃ u, validDT u ∧ r'.appointment_date = canon u ∧
        59 ≤ distMin (toMin u) (toMin dt)) :
    (update_appointment st now r.id r.appointment_date).1 = .ok r.appointment_date := by
  have hmt : minTrunc dt = dt := minTrunc_eq_self hsec
  have hpv : parse_and_validate_date r.appointment_date now = .ok r.appointment_date := by
    rw [hdate]
    unfold parse_and_validate_date
    rw [stripZ_canon hv, tryFormats_canon hv, hmt]
    dsimp only
    rw [if_neg (by simp [hfuture])]
  unfold update_appointment
  rw [hpv]
  dsimp only
  rw [hdate, tryFormat4_canon hv, hmt]
  dsimp only
  have hex : st.rows.any (fun r' => decide (r'.id = r.id)) = true :=
    List.any_eq_true.mpr ⟨r, hr, by simp⟩
  rw [if_neg (not_not_intro hex)]
  obtain ⟨sdt, hs⟩ := sub59_total hh8
  obtain ⟨edt, he⟩ := add59_total hv hh16
  have hid0 : ¬ r.id = 0 := by omega
  have hcanonF : ∀ r' ∈ rowsForCheck st.rows (some r.id), canonicalRow r' := by
    intro r' hr'
    obtain ⟨u, hu, hcu, -⟩ :=
      hothers r' (rowsForCheck_sub hr') (rowsForCheck_id hid0 hr')
    exact ⟨minTrunc u, minTrunc_valid hu, rfl, by rw [hcu, canon_minTrunc]⟩
  have hall : ∀ r' ∈ rowsForCheck st.rows (some r.id),
      ¬(toMin dt < storedMin r' + 59 ∧ storedMin r' < toMin dt + 59) := by
    intro r' hr'
    obtain ⟨u, hu, hcu, hdist⟩ :=
      hothers r' (rowsForCheck_sub hr') (rowsForCheck_id hid0 hr')
    rw [storedMin_canon hu hcu]
    unfold distMin at hdist
    omega
  rw [(check_true_iff (some r.id) hcanonF hv hs he).mpr hall]

/-- C8 (witness): rescheduling the only booking of the one-booking store
to its own stored time `2099-01-10 09:00` succeeds. -/
theorem c8_reschedule_witness :
    (update_appointment exStore1 exNow 1 ("2099-01-10 09:00".toList)).1 =
      .ok ("2099-01-10 09:00".toList) := by
  refine @c8_reschedule_self exStore1 exNow
    ⟨1, "Alice".toList, 30, "cleaning".toList, "2099-01-10 09:00".toList⟩
    ⟨2099, 1, 10, 9, 0, 0⟩ (by decide) (by decide) (by decide) (by decide)
    (by decide) (by decide) (by decide) (by decide) ?_
  intro r' hr' hne
  exfalso
  have h1 : r' ∈ [(⟨1, "Alice".toList, 30, "cleaning".toList,
      "2099-01-10 09:00".toList⟩ : Row)] := hr'
  have h2 := List.mem_singleton.mp h1
  subst h2
  exact hne rfl

/-- C10 (witness): the stored row of the one-booking store is canonical,
and the string order of two concrete canonical instants matches their
chronological order. -/
theorem c10_canonical_witness :
    (∃ u, validDT u ∧ u.second = 0 ∧
      (⟨1, "Alice".toList, 30, "cleaning".toList, "2099-01-10 09:00".toList⟩ :
          Row).appointment_date = canon u) ∧
    ((ltB (canon ⟨2099, 1, 10, 9, 0, 0⟩) (canon ⟨2099, 1, 11, 8, 0, 0⟩) = true) ↔
      toMin ⟨2099, 1, 10, 9, 0, 0⟩ < toMin ⟨2099, 1, 11, 8, 0, 0⟩) := by
  have hreach : Reach exStore1 :=
    Reach.create ⟨[], 1⟩ exNow (mkReq ("2099-01-10 09:00".toList)) Reach.init (by decide)
  exact ⟨c10_canonical_order.1 exStore1 hreach _ (by decide),
    c10_canonical_order.2 _ _ (by decide) (by decide)⟩

end Breez
